import Mathlib

/-!
Verification of `task-tracker/task-cli.js`.

A shallow embedding of the command-line task tracker and the properties of its
task operations.

Modelling conventions.

* A task record is a `Task`.  Its `id` is a JavaScript number holding an integer, modelled
  as an `Int`.  Where the program computes with ids the result is rounded to the nearest
  number (`roundToDouble`): the sum `Math.max(...) + 1` of `generateId` and the value of
  `parseInt`.  Integers of absolute value up to `2^53` are numbers, so on the safe integers
  the arithmetic is exact.  `status` and the two timestamps are the strings the record holds
  (a hand-edited file may hold any string).
* `World` is everything the program reads or changes: the backing file `tasks.json`
  (absent, or holding a sequence of task records), the clock read by `new Date()`, the two
  console streams, and the log of the sequences handed to `fs.writeFile`.  It also holds
  the number of arguments the engine accepts in one call, which bounds the spread call
  `Math.max(...ids)`, and the exception that call throws beyond the bound, which `main`
  catches and reports.
* Every `async function` of the source is a function `World → World` (or into a pair of a
  result and a `World`); `await` is sequencing.
* The task operations and `main` work on a file that, when present, holds a sequence of
  task records.  The text of the file is modelled one level below, in `Raw`: there
  `readTasks` is `JSON.parse` of the text and `writeTasks` writes `JSON.stringify` of the
  value, both embedded from their ECMAScript definitions, and `JSON.parse_stringify_tasks`
  shows that the text written for a sequence of task records reads back as that sequence.
  Input/output failures other than a missing file are not part of the model.
-/

namespace TaskCli

/-! ## Data model -/

/-- One record of `tasks.json`. -/
structure Task where
  id : Int
  description : String
  status : String
  createdAt : String
  updatedAt : String
deriving DecidableEq, Repr

/-- The state the program runs in.  `clock n` is what the `n`-th coming `new Date()` reads,
rendered by `toISOString`.  `maxArguments` is the largest number of arguments the engine
accepts in one call: a spread call with more throws a `RangeError`.  `thrown` is the message
of the exception with which the last `addTask` ended, when it threw, until the `catch` of
`main` handles it; no other operation of the model throws. -/
structure World where
  file : Option (List Task)
  clock : Nat → String
  stdout : List String
  stderr : List String
  writes : List (List Task)
  maxArguments : Nat
  thrown : Option String

/-! ## ANSI color codes -/

namespace COLORS

def reset : String := "\x1b[0m"
def green : String := "\x1b[32m"
def red : String := "\x1b[31m"
def yellow : String := "\x1b[33m"
def cyan : String := "\x1b[36m"
def blue : String := "\x1b[34m"
def bold : String := "\x1b[1m"

end COLORS

/-! ## Console and file primitives -/

/-- The effect of `console.log(line)`. -/
def consoleLog (line : String) (w : World) : World :=
  { w with stdout := w.stdout ++ [line] }

/-- The effect of `console.error(line)`. -/
def consoleError (line : String) (w : World) : World :=
  { w with stderr := w.stderr ++ [line] }

/-- The effect of `fs.writeFile(TASKS_FILE, JSON.stringify(tasks, ...))`: the file now holds
`tasks`, and the write is logged. -/
def writeFile (tasks : List Task) (w : World) : World :=
  { w with file := some tasks, writes := w.writes ++ [tasks] }

/-- Ensure tasks.json exists: `fs.access` throws exactly when the file is absent, and the
`catch` then writes the empty array. -/
def initializeFile (w : World) : World :=
  match w.file with
  | some _ => w
  | none => writeFile [] w

/-- Read tasks from file; on `ENOENT` write the empty array and return it. -/
def readTasks (w : World) : List Task × World :=
  match w.file with
  | some tasks => (tasks, w)
  | none => ([], writeFile [] w)

/-- Write tasks to file. -/
def writeTasks (tasks : List Task) (w : World) : World :=
  writeFile tasks w

/-! ## Numbers -/

/-- How many times `a` is halved before it is below `2^53`: the number of binary digits of
`a` that do not fit in the 53-digit significand of a number. -/
def excessBits : Nat → Nat → Nat
  | 0, _ => 0
  | fuel + 1, a => if a < 9007199254740992 then 0 else excessBits fuel (a / 2) + 1

/-- The number (IEEE 754 double) nearest to the integer `n`, a tie going to the even
significand.  Every integer of absolute value up to `2^53` is a number. -/
def roundToDouble (n : Int) : Int :=
  let a := n.natAbs
  if a ≤ 9007199254740992 then n
  else
    let e := excessBits a a
    let q := a / 2 ^ e
    let r := a % 2 ^ e
    let q' := if 2 ^ e < 2 * r ∨ (2 * r = 2 ^ e ∧ q % 2 = 1) then q + 1 else q
    if n < 0 then -((q' * 2 ^ e : Nat) : Int) else ((q' * 2 ^ e : Nat) : Int)

/-- The operator `+` on two numbers that hold integers: the exact sum, rounded. -/
def numberAdd (a b : Int) : Int :=
  roundToDouble (a + b)

/-- The message of the `RangeError` thrown by a call with too many arguments. -/
def rangeErrorMessage : String := "Maximum call stack size exceeded"

/-- The largest of `x` and the elements of `xs`. -/
def largest (x : Int) (xs : List Int) : Int :=
  xs.foldl max x

/-- `Math.max(...values)` on the non-empty array `x :: xs`: every element is one argument
of the call, which throws when there are more of them than the engine accepts and returns
the largest otherwise. -/
def mathMax (maxArguments : Nat) (x : Int) (xs : List Int) : Except String Int :=
  if maxArguments < (x :: xs).length then .error rangeErrorMessage
  else .ok (largest x xs)

/-- Generate unique ID: `tasks.length > 0 ? Math.max(...tasks.map((task) => task.id)) + 1 : 1`. -/
def generateId (maxArguments : Nat) (tasks : List Task) : Except String Int :=
  match tasks.map (fun task => task.id) with
  | [] => .ok 1
  | x :: xs =>
    match mathMax maxArguments x xs with
    | .ok m => .ok (numberAdd m 1)
    | .error message => .error message

/-- The reading of `new Date().toISOString()`, and the world in which that reading is
consumed. -/
def getCurrentDate (w : World) : String × World :=
  (w.clock 0, { w with clock := fun n => w.clock (n + 1) })

/-- Format task status with color. -/
def formatStatus (status : String) : String :=
  if status = "todo" then COLORS.red ++ status ++ COLORS.reset
  else if status = "in-progress" then COLORS.yellow ++ status ++ COLORS.reset
  else if status = "done" then COLORS.green ++ status ++ COLORS.reset
  else status

/-! ## `parseInt` -/

/-- The code points `parseInt` skips at the start: ECMAScript `WhiteSpace` and
`LineTerminator`. -/
def isStrWhiteSpace (c : Char) : Bool :=
  let n := c.toNat
  n == 9 || n == 10 || n == 11 || n == 12 || n == 13 || n == 32 || n == 160 || n == 5760
    || (decide (8192 ≤ n) && decide (n ≤ 8202))
    || n == 8232 || n == 8233 || n == 8239 || n == 8287 || n == 12288 || n == 65279

/-- The value of a character as a digit: `0`-`9`, then letters of either case from 10. -/
def digitValue (c : Char) : Option Nat :=
  let n := c.toNat
  if 48 ≤ n ∧ n ≤ 57 then some (n - 48)
  else if 97 ≤ n ∧ n ≤ 122 then some (n - 87)
  else if 65 ≤ n ∧ n ≤ 90 then some (n - 55)
  else none

/-- The digit values of the longest run of radix-`R` digits at the start of `S`. -/
def radixDigits (R : Nat) : List Char → List Nat
  | [] => []
  | c :: cs =>
    match digitValue c with
    | some d => if d < R then d :: radixDigits R cs else []
    | none => []

/-- Drop a leading `+` or `-`. -/
def dropSign : List Char → List Char
  | [] => []
  | c :: cs => if c.toNat = 43 ∨ c.toNat = 45 then cs else c :: cs

/-- A leading `0x` or `0X` selects radix 16 and is dropped; otherwise the radix is 10. -/
def stripRadix : List Char → Nat × List Char
  | c :: d :: cs =>
    if c.toNat = 48 ∧ (d.toNat = 120 ∨ d.toNat = 88) then (16, cs) else (10, c :: d :: cs)
  | cs => (10, cs)

/-- The number nearest to the integer `n` when that number is finite: an integer of `2^1024`
or more in absolute value (after rounding) is an infinity, which is no task id. -/
def finiteNumber (n : Int) : Option Int :=
  let r := roundToDouble n
  if excessBits r.natAbs r.natAbs ≤ 971 then some r else none

/-- `parseInt(string)` with no radix argument: the integer the digits spell, rounded to the
nearest number (ECMAScript lets an implementation approximate beyond the 20th significant
digit; V8 rounds the exact integer); `none` is `NaN` or an infinity, which equal no task id.
(Negative zero is zero: `===` does not tell them apart.) -/
def parseInt (string : String) : Option Int :=
  let S := string.data.dropWhile isStrWhiteSpace
  let sign : Int := if (S.head?.map Char.toNat) = some 45 then -1 else 1
  let RS := stripRadix (dropSign S)
  let Z := radixDigits RS.1 RS.2
  if Z.isEmpty then none
  else finiteNumber (sign * ((Z.foldl (fun a d => a * RS.1 + d) 0 : Nat) : Int))

/-! ## Task operations -/

/-- The test `t.id === parseInt(id)`. -/
def idIs (id : String) (t : Task) : Bool :=
  parseInt id == some t.id

/-- Assigning to fields of the object that `tasks.find(p)` returned: the first element of
the array satisfying `p` is the one that changes. -/
def modifyFirst (p : Task → Bool) (f : Task → Task) : List Task → List Task
  | [] => []
  | t :: ts => if p t then f t :: ts else t :: modifyFirst p f ts

def notFoundLine : String :=
  COLORS.red ++ "Error: Task not found" ++ COLORS.reset

/-- Add a new task.  When `generateId` throws, nothing after it runs: the exception leaves
`addTask` with the file as `readTasks` left it. -/
def addTask (description : String) (w : World) : World :=
  let r := readTasks w
  let tasks := r.1
  match generateId r.2.maxArguments tasks with
  | .error message => { r.2 with thrown := some message }
  | .ok id =>
    let c := getCurrentDate r.2
    let u := getCurrentDate c.2
    let newTask : Task :=
      { id := id, description := description, status := "todo", createdAt := c.1, updatedAt := u.1 }
    let w := writeTasks (tasks ++ [newTask]) u.2
    let w := consoleLog
      (COLORS.green ++ "Task added successfully (ID: " ++ toString newTask.id ++ ")" ++ COLORS.reset) w
    { w with thrown := none }

/-- Update a task. -/
def updateTask (id : String) (description : String) (w : World) : World :=
  let r := readTasks w
  let tasks := r.1
  match tasks.find? (idIs id) with
  | none => consoleError notFoundLine r.2
  | some _ =>
    let u := getCurrentDate r.2
    let tasks := modifyFirst (idIs id)
      (fun task => { task with description := description, updatedAt := u.1 }) tasks
    let w := writeTasks tasks u.2
    consoleLog (COLORS.green ++ "Task updated successfully" ++ COLORS.reset) w

/-- Delete a task. -/
def deleteTask (id : String) (w : World) : World :=
  let r := readTasks w
  let tasks := r.1
  let filteredTasks := tasks.filter (fun t => !idIs id t)
  if filteredTasks.length = tasks.length then consoleError notFoundLine r.2
  else
    let w := writeTasks filteredTasks r.2
    consoleLog (COLORS.green ++ "Task deleted successfully" ++ COLORS.reset) w

/-- Mark task status. -/
def markTask (id : String) (status : String) (w : World) : World :=
  let r := readTasks w
  let tasks := r.1
  match tasks.find? (idIs id) with
  | none => consoleError notFoundLine r.2
  | some _ =>
    let u := getCurrentDate r.2
    let tasks := modifyFirst (idIs id)
      (fun task => { task with status := status, updatedAt := u.1 }) tasks
    let w := writeTasks tasks u.2
    consoleLog (COLORS.green ++ "Task marked as " ++ formatStatus status ++ COLORS.reset) w

/-- JavaScript truthiness of a value that is a string or `undefined`: the string, when it
is defined and not empty. -/
def truthy : Option String → Option String
  | none => none
  | some s => if s = "" then none else some s

/-- The line `listTasks` prints for one task. -/
def taskLine (task : Task) : String :=
  COLORS.bold ++ "ID:" ++ COLORS.reset ++ " " ++ toString task.id ++ ", "
    ++ COLORS.bold ++ "Description:" ++ COLORS.reset ++ " " ++ task.description ++ ", "
    ++ COLORS.bold ++ "Status:" ++ COLORS.reset ++ " " ++ formatStatus task.status ++ ", "
    ++ COLORS.bold ++ "Created:" ++ COLORS.reset ++ " " ++ task.createdAt ++ ", "
    ++ COLORS.bold ++ "Updated:" ++ COLORS.reset ++ " " ++ task.updatedAt

/-- The tasks `listTasks(status)` prints. -/
def listed (status : Option String) (tasks : List Task) : List Task :=
  match truthy status with
  | some s => tasks.filter (fun t => t.status = s)
  | none => tasks

/-- List tasks. -/
def listTasks (status : Option String) (w : World) : World :=
  let r := readTasks w
  let filteredTasks := listed status r.1
  if filteredTasks.length = 0 then
    consoleLog (COLORS.yellow ++ "No tasks found" ++ COLORS.reset) r.2
  else
    let w := consoleLog (COLORS.bold ++ COLORS.cyan ++ "Tasks:" ++ COLORS.reset) r.2
    filteredTasks.foldl (fun w task => consoleLog (taskLine task) w) w

def usageLine : String :=
  COLORS.red ++ "Usage:" ++ COLORS.reset ++ "\n"
    ++ "  " ++ COLORS.blue ++ "task-cli add \"Task description\"" ++ COLORS.reset ++ "\n"
    ++ "  " ++ COLORS.blue ++ "task-cli update <id> \"New description\"" ++ COLORS.reset ++ "\n"
    ++ "  " ++ COLORS.blue ++ "task-cli delete <id>" ++ COLORS.reset ++ "\n"
    ++ "  " ++ COLORS.blue ++ "task-cli mark-in-progress <id>" ++ COLORS.reset ++ "\n"
    ++ "  " ++ COLORS.blue ++ "task-cli mark-done <id>" ++ COLORS.reset ++ "\n"
    ++ "  " ++ COLORS.blue ++ "task-cli list [done|todo|in-progress]" ++ COLORS.reset

def idRequiredLine : String :=
  COLORS.red ++ "Error: ID is required" ++ COLORS.reset

/-- The `catch (error)` of `main`: an exception that reaches it is reported on the error
stream as `Error: ` followed by its message.  In the model only `addTask` throws, so `main`
applies it to the outcome of `addTask`. -/
def catchError (w : World) : World :=
  match w.thrown with
  | some message =>
    consoleError (COLORS.red ++ "Error: " ++ message ++ COLORS.reset) { w with thrown := none }
  | none => w

/-- Main CLI handler; `args` is `process.argv.slice(2)`. -/
def main (args : List String) (w : World) : World :=
  let w := initializeFile w
  let command := args[0]?
  let id := args[1]?
  let description := " ".intercalate (args.drop 1)
  if command = some "add" then
    if description = "" then
      consoleError (COLORS.red ++ "Error: Description is required" ++ COLORS.reset) w
    else catchError (addTask description w)
  else if command = some "update" then
    match truthy id with
    | none =>
      consoleError (COLORS.red ++ "Error: ID and description are required" ++ COLORS.reset) w
    | some id =>
      if description = "" then
        consoleError (COLORS.red ++ "Error: ID and description are required" ++ COLORS.reset) w
      else updateTask id description w
  else if command = some "delete" then
    match truthy id with
    | none => consoleError idRequiredLine w
    | some id => deleteTask id w
  else if command = some "mark-in-progress" then
    match truthy id with
    | none => consoleError idRequiredLine w
    | some id => markTask id "in-progress" w
  else if command = some "mark-done" then
    match truthy id with
    | none => consoleError idRequiredLine w
    | some id => markTask id "done" w
  else if command = some "list" then
    let status := args[1]?
    match truthy status with
    | some s =>
      if s = "done" ∨ s = "todo" ∨ s = "in-progress" then listTasks status w
      else
        consoleError
          (COLORS.red ++ "Error: Invalid status. Use \"done\", \"todo\", or \"in-progress\""
            ++ COLORS.reset) w
    | none => listTasks status w
  else consoleError usageLine w

/-! ## Sample data -/

def sampleClock : Nat → String := fun n =>
  if n = 0 then "2024-01-01T00:00:00.000Z" else "2024-01-01T00:00:00.001Z"

def sampleTask (id : Int) (description : String) : Task :=
  { id := id, description := description, status := "todo",
    createdAt := "2023-12-31T00:00:00.000Z", updatedAt := "2023-12-31T00:00:00.000Z" }

/-- A world whose file holds `tasks`; its argument limit is of the order of what Node.js
accepts with its default stack size. -/
def sampleWorld (tasks : List Task) : World :=
  { file := some tasks, clock := sampleClock, stdout := [], stderr := [], writes := [],
    maxArguments := 125000, thrown := none }

/-! ## Notions used in the statements -/

/-- The sequence a command starts from: what `readTasks` returns. -/
def tasksOf (w : World) : List Task :=
  (readTasks w).1

/-- The ids of a sequence are pairwise distinct positive integers. -/
def UniquePositiveIds (tasks : List Task) : Prop :=
  (tasks.map (fun t => t.id)).Nodup ∧ ∀ t ∈ tasks, 0 < t.id

instance (tasks : List Task) : Decidable (UniquePositiveIds tasks) := by
  unfold UniquePositiveIds; infer_instance

/-- Every id of a sequence is a safe integer (`Number.isSafeInteger`): its absolute value is
below `2^53`. -/
def SafeIds (tasks : List Task) : Prop :=
  ∀ t ∈ tasks, t.id.natAbs < 9007199254740992

instance (tasks : List Task) : Decidable (SafeIds tasks) := by
  unfold SafeIds; infer_instance

/-- The id the description of the store gives a new task: 1 on an empty store, otherwise
the largest id of the store plus one, in exact arithmetic. -/
def specId (tasks : List Task) : Int :=
  match tasks.map (fun task => task.id) with
  | [] => 1
  | x :: xs => largest x xs + 1

/-- The store of a world has pairwise distinct positive ids. -/
def StoreOk (w : World) : Prop :=
  UniquePositiveIds (tasksOf w)

instance (w : World) : Decidable (StoreOk w) := by
  unfold StoreOk; infer_instance

/-- One `add` per description, in order; an `add` that throws adds nothing. -/
def addAll (descriptions : List String) (w : World) : World :=
  descriptions.foldl (fun w d => addTask d w) w

/-- Every status of a sequence is one of the three defined values. -/
def StatusesOk (tasks : List Task) : Prop :=
  ∀ t ∈ tasks, t.status = "todo" ∨ t.status = "in-progress" ∨ t.status = "done"

instance (tasks : List Task) : Decidable (StatusesOk tasks) := by
  unfold StatusesOk; infer_instance

/-- In every task of a sequence, `updatedAt` is not earlier than `createdAt`.  Timestamps
are compared as strings, which for `toISOString` renderings is the order of time. -/
def TimesOk (tasks : List Task) : Prop :=
  ∀ t ∈ tasks, t.createdAt ≤ t.updatedAt

def noTasksLine : String :=
  COLORS.yellow ++ "No tasks found" ++ COLORS.reset

def tasksHeaderLine : String :=
  COLORS.bold ++ COLORS.cyan ++ "Tasks:" ++ COLORS.reset

def descriptionRequiredLine : String :=
  COLORS.red ++ "Error: Description is required" ++ COLORS.reset

/-! ## JSON values and texts

The file on disk is a text; `readTasks` turns it into a value with `JSON.parse` and
`writeTasks` turns a value into a text with `JSON.stringify`.  Numbers are modelled as far
as they are integers, strings as far as they are sequences of Unicode scalar values: a text
whose number literals are not all integers, or which escapes a lone surrogate, is reported
as `Fault.notModelled` and nothing is stated about it.  In this layer an integer is read and
written exactly, in plain decimal digits: that is what JavaScript does for the integers that
are numbers below `10^21`, while it reads any other integer literal as the nearest number
and writes a number from `10^21` on in exponent form. -/

/-- A JavaScript value that `JSON.parse` returns.  The members of an object are in
property order. -/
inductive Json where
  | null
  | bool (b : Bool)
  | num (n : Int)
  | str (s : String)
  | arr (items : List Json)
  | obj (members : List (String × Json))

/-- Why parsing did not produce a value. -/
inductive Fault where
  /-- `JSON.parse` throws a `SyntaxError`. -/
  | invalidJson
  /-- The text is beyond what the model covers. -/
  | notModelled
  /-- The recursion bound of the model was reached (this never happens, see
  `JSON.parse_within_bound`). -/
  | bound
deriving DecidableEq, Repr

namespace JSON

/-! ### `JSON.stringify` -/

/-- The lower-case hexadecimal digit of a value below 16. -/
def hexDigit (n : Nat) : Char :=
  if n < 10 then Char.ofNat (48 + n) else Char.ofNat (87 + n)

/-- One code point inside `QuoteJSONString`: the short escapes, `\u00xx` for the other
control characters, the code point itself otherwise. -/
def quoteChar (c : Char) : List Char :=
  let n := c.toNat
  if n = 8 then ['\\', 'b']
  else if n = 9 then ['\\', 't']
  else if n = 10 then ['\\', 'n']
  else if n = 12 then ['\\', 'f']
  else if n = 13 then ['\\', 'r']
  else if n = 34 then ['\\', '"']
  else if n = 92 then ['\\', '\\']
  else if n < 32 then ['\\', 'u', '0', '0', hexDigit (n / 16), hexDigit (n % 16)]
  else [c]

/-- The characters between the quotes of `QuoteJSONString`. -/
def quoteChars : List Char → List Char
  | [] => []
  | c :: cs => quoteChar c ++ quoteChars cs

/-- The abstract operation `QuoteJSONString`. -/
def QuoteJSONString (s : String) : List Char :=
  '"' :: (quoteChars s.data ++ ['"'])

/-- Join the serialized parts of an array or object with a separator. -/
def joinWith (separator : List Char) : List (List Char) → List Char
  | [] => []
  | [x] => x
  | x :: y :: rest => x ++ separator ++ joinWith separator (y :: rest)

/-- What `SerializeJSONArray` and `SerializeJSONObject` do with the serialized parts:
`stepback` is the indentation outside, `indent` the indentation inside. -/
def wrap (opening closing : Char) (gap stepback indent : List Char)
    (parts : List (List Char)) : List Char :=
  if parts.isEmpty then [opening, closing]
  else if gap.isEmpty then opening :: (joinWith [','] parts ++ [closing])
  else
    opening :: '\n' :: (indent ++ joinWith (',' :: '\n' :: indent) parts
      ++ '\n' :: (stepback ++ [closing]))

mutual
/-- The abstract operation `SerializeJSONProperty` on a value, at indentation `indent`. -/
def SerializeJSONProperty (gap indent : List Char) : Json → List Char
  | .null => "null".data
  | .bool true => "true".data
  | .bool false => "false".data
  | .num n => (toString n).data
  | .str s => QuoteJSONString s
  | .arr items => wrap '[' ']' gap indent (indent ++ gap) (serializeItems gap (indent ++ gap) items)
  | .obj members =>
    wrap '{' '}' gap indent (indent ++ gap) (serializeMembers gap (indent ++ gap) members)
/-- The serialized elements of an array. -/
def serializeItems (gap indent : List Char) : List Json → List (List Char)
  | [] => []
  | v :: vs => SerializeJSONProperty gap indent v :: serializeItems gap indent vs
/-- The serialized members of an object: quoted key, colon, a space when there is a gap,
value. -/
def serializeMembers (gap indent : List Char) : List (String × Json) → List (List Char)
  | [] => []
  | (k, v) :: ms =>
    (QuoteJSONString k ++ (if gap.isEmpty then [':'] else [':', ' '])
        ++ SerializeJSONProperty gap indent v)
      :: serializeMembers gap indent ms
end

/-- `JSON.stringify(value, null, space)` for a number `space`: the gap is `space` spaces, at
most 10.  `JSON.stringify(value)` is `stringify value 0`. -/
def stringify (value : Json) (space : Nat) : String :=
  ⟨SerializeJSONProperty (List.replicate (min space 10) ' ') [] value⟩

/-! ### `JSON.parse` -/

/-- JSON white space: tab, line feed, carriage return, space. -/
def isWhiteSpace (c : Char) : Bool :=
  c.toNat == 9 || c.toNat == 10 || c.toNat == 13 || c.toNat == 32

def skipWhiteSpace : List Char → List Char
  | [] => []
  | c :: cs => if isWhiteSpace c then skipWhiteSpace cs else c :: cs

def isDigit (c : Char) : Bool :=
  decide (48 ≤ c.toNat) && decide (c.toNat ≤ 57)

/-- The value of a hexadecimal digit of either case. -/
def hexValue (c : Char) : Option Nat :=
  let n := c.toNat
  if 48 ≤ n ∧ n ≤ 57 then some (n - 48)
  else if 97 ≤ n ∧ n ≤ 102 then some (n - 87)
  else if 65 ≤ n ∧ n ≤ 70 then some (n - 55)
  else none

/-- The value of four hexadecimal digits. -/
def hex4 (a b c d : Char) : Option Nat :=
  match hexValue a, hexValue b, hexValue c, hexValue d with
  | some x, some y, some z, some w => some (((x * 16 + y) * 16 + z) * 16 + w)
  | _, _, _, _ => none

/-- Put a character in front of the characters of a string being read. -/
def consChar (c : Char) :
    Except Fault (List Char × List Char) → Except Fault (List Char × List Char)
  | .ok (s, rest) => .ok (c :: s, rest)
  | .error e => .error e

/-- The character denoted by a one-letter escape, if the letter is one. -/
def simpleEscape (e : Char) : Option Char :=
  if e.toNat = 34 then some '"'
  else if e.toNat = 92 then some '\\'
  else if e.toNat = 47 then some '/'
  else if e.toNat = 98 then some (Char.ofNat 8)
  else if e.toNat = 102 then some (Char.ofNat 12)
  else if e.toNat = 110 then some (Char.ofNat 10)
  else if e.toNat = 114 then some (Char.ofNat 13)
  else if e.toNat = 116 then some (Char.ofNat 9)
  else none

/-- After the `\u` escape of the high surrogate `n`: the `\u` escape of a low surrogate,
which with `n` denotes one character; the two escapes take up 11 characters after the first
backslash. -/
def lowSurrogate (n : Nat) : List Char → Except Fault (Char × Nat)
  | b :: u :: l1 :: l2 :: l3 :: l4 :: _ =>
    if b.toNat = 92 ∧ u.toNat = 117 then
      match hex4 l1 l2 l3 l4 with
      | none => .error .invalidJson
      | some m =>
        if 56320 ≤ m ∧ m < 57344 then
          .ok (Char.ofNat (65536 + (n - 55296) * 1024 + (m - 56320)), 11)
        else .error .notModelled
    else .error .notModelled
  | _ => .error .notModelled

/-- The four hexadecimal digits of a `\u` escape, at the start of a text that follows the
`u`. -/
def unicodeEscape : List Char → Except Fault (Char × Nat)
  | h1 :: h2 :: h3 :: h4 :: cs1 =>
    match hex4 h1 h2 h3 h4 with
    | none => .error .invalidJson
    | some n =>
      if n < 55296 ∨ 57344 ≤ n then .ok (Char.ofNat n, 5)
      else if 56320 ≤ n then .error .notModelled
      else lowSurrogate n cs1
  | _ => .error .invalidJson

/-- The escape sequence at the start of a text that follows a backslash: the character it
denotes and the number of characters it takes up. -/
def parseEscape : List Char → Except Fault (Char × Nat)
  | [] => .error .invalidJson
  | e :: cs =>
    match simpleEscape e with
    | some ch => .ok (ch, 1)
    | none => if e.toNat = 117 then unicodeEscape cs else .error .invalidJson

/-- The characters of a string literal, read from just after its opening quote up to its
closing quote, and the text after that quote.  `skip` counts the characters still to pass
over because they belong to an escape sequence that has been read already. -/
def parseStringLoop : Nat → List Char → Except Fault (List Char × List Char)
  | _, [] => .error .invalidJson
  | skip + 1, _ :: cs => parseStringLoop skip cs
  | 0, c :: cs =>
    if c.toNat = 34 then .ok ([], cs)
    else if c.toNat = 92 then
      match parseEscape cs with
      | .error e => .error e
      | .ok (ch, n) => consChar ch (parseStringLoop n cs)
    else if c.toNat < 32 then .error .invalidJson
    else consChar c (parseStringLoop 0 cs)

/-- The characters of a string literal and the text after it, from just after the opening
quote. -/
def parseStringChars (cs : List Char) : Except Fault (List Char × List Char) :=
  parseStringLoop 0 cs

/-- The longest run of decimal digits at the start of a text, and the text after it. -/
def spanDigits : List Char → List Char × List Char
  | [] => ([], [])
  | c :: cs =>
    if isDigit c then ((spanDigits cs).1.cons c, (spanDigits cs).2) else ([], c :: cs)

/-- The number written by decimal digits. -/
def digitsValue (ds : List Char) : Nat :=
  ds.foldl (fun a c => a * 10 + (c.toNat - 48)) 0

/-- The integer part of a number literal: `0`, or a digit from 1 to 9 followed by
digits. -/
def parseIntegerPart : List Char → Except Fault (List Char × List Char)
  | [] => .error .invalidJson
  | c :: cs =>
    if c.toNat = 48 then .ok ([c], cs)
    else if isDigit c then .ok ((spanDigits cs).1.cons c, (spanDigits cs).2)
    else .error .invalidJson

/-- The optional fraction part of a number literal: its digits (none when absent). -/
def parseFractionPart : List Char → Except Fault (List Char × List Char)
  | [] => .ok ([], [])
  | c :: cs =>
    if c.toNat = 46 then
      if (spanDigits cs).1.isEmpty then .error .invalidJson else .ok (spanDigits cs)
    else .ok ([], c :: cs)

/-- The digits of an exponent, after its sign. -/
def parseExponentDigits (negative : Bool) (cs : List Char) : Except Fault (Int × List Char) :=
  if (spanDigits cs).1.isEmpty then .error .invalidJson
  else
    .ok (if negative then -(digitsValue (spanDigits cs).1 : Int)
      else (digitsValue (spanDigits cs).1 : Int), (spanDigits cs).2)

/-- The optional exponent part of a number literal: the exponent (0 when absent). -/
def parseExponentPart : List Char → Except Fault (Int × List Char)
  | [] => .ok (0, [])
  | c :: cs =>
    if c.toNat = 101 ∨ c.toNat = 69 then
      match cs with
      | [] => .error .invalidJson
      | s :: cs1 =>
        if s.toNat = 45 then parseExponentDigits true cs1
        else if s.toNat = 43 then parseExponentDigits false cs1
        else parseExponentDigits false (s :: cs1)
    else .ok (0, c :: cs)

/-- The value `mantissa × 10 ^ exponent` when it is an integer. -/
def scaled (mantissa : Nat) (exponent : Int) : Except Fault Int :=
  match exponent with
  | .ofNat e => .ok (mantissa * 10 ^ e : Nat)
  | .negSucc e =>
    if mantissa % 10 ^ (e + 1) = 0 then .ok (mantissa / 10 ^ (e + 1) : Nat)
    else .error .notModelled

/-- A number literal at the start of a text. -/
def parseNumber (cs : List Char) : Except Fault (Int × List Char) :=
  let negative := (cs.head?.map Char.toNat) = some 45
  match parseIntegerPart (if negative then cs.tail else cs) with
  | .error e => .error e
  | .ok (ip, cs1) =>
    match parseFractionPart cs1 with
    | .error e => .error e
    | .ok (fp, cs2) =>
      match parseExponentPart cs2 with
      | .error e => .error e
      | .ok (ex, cs3) =>
        match scaled (digitsValue (ip ++ fp)) (ex - fp.length) with
        | .error e => .error e
        | .ok v => .ok (if negative then -v else v, cs3)

/-- Whether a property key is an array index: the canonical decimal form of an integer
below `2^32 - 1`. -/
def isArrayIndex (key : String) : Bool :=
  !key.data.isEmpty && key.data.all isDigit
    && (key.data.length == 1 || key.data.head? != some '0')
    && decide (digitsValue key.data < 4294967295)

/-- Where a new array-index key goes: before the first member that is not an array index
or is a larger one. -/
def insertIndex (key : String) (value : Json) : List (String × Json) → List (String × Json)
  | [] => [(key, value)]
  | (k, v) :: ms =>
    if isArrayIndex k && decide (digitsValue k.data < digitsValue key.data) then
      (k, v) :: insertIndex key value ms
    else (key, value) :: (k, v) :: ms

/-- Replace the value of an existing key, keeping its place. -/
def replaceKey (key : String) (value : Json) : List (String × Json) → List (String × Json)
  | [] => []
  | (k, v) :: ms => if k = key then (k, value) :: ms else (k, v) :: replaceKey key value ms

/-- Defining the property `key` of an object being built: an existing key keeps its place
and takes the new value; a new array index goes among the array indices in ascending order,
which come first; any other new key goes last. -/
def defineProperty (members : List (String × Json)) (key : String) (value : Json) :
    List (String × Json) :=
  if members.any (fun m => m.1 = key) then replaceKey key value members
  else if isArrayIndex key then insertIndex key value members
  else members ++ [(key, value)]

mutual
/-- A value at the start of a text (after white space), and the text after it. -/
def parseValue : Nat → List Char → Except Fault (Json × List Char)
  | 0, _ => .error .bound
  | fuel + 1, cs =>
    match skipWhiteSpace cs with
    | [] => .error .invalidJson
    | c :: rest =>
      if c.toNat = 123 then
        match skipWhiteSpace rest with
        | [] => .error .invalidJson
        | d :: rest1 =>
          if d.toNat = 125 then .ok (.obj [], rest1)
          else
            match parseMembers fuel [] (d :: rest1) with
            | .ok (members, rest2) => .ok (.obj members, rest2)
            | .error e => .error e
      else if c.toNat = 91 then
        match skipWhiteSpace rest with
        | [] => .error .invalidJson
        | d :: rest1 =>
          if d.toNat = 93 then .ok (.arr [], rest1)
          else
            match parseElements fuel (d :: rest1) with
            | .ok (items, rest2) => .ok (.arr items, rest2)
            | .error e => .error e
      else if c.toNat = 34 then
        match parseStringChars rest with
        | .ok (s, rest1) => .ok (.str ⟨s⟩, rest1)
        | .error e => .error e
      else if c.toNat = 45 ∨ isDigit c = true then
        match parseNumber (c :: rest) with
        | .ok (n, rest1) => .ok (.num n, rest1)
        | .error e => .error e
      else
        match c :: rest with
        | 't' :: 'r' :: 'u' :: 'e' :: rest1 => .ok (.bool true, rest1)
        | 'f' :: 'a' :: 'l' :: 's' :: 'e' :: rest1 => .ok (.bool false, rest1)
        | 'n' :: 'u' :: 'l' :: 'l' :: rest1 => .ok (.null, rest1)
        | _ => .error .invalidJson
termination_by structural fuel => fuel
/-- The elements of an array, read from its first element up to its closing bracket. -/
def parseElements : Nat → List Char → Except Fault (List Json × List Char)
  | 0, _ => .error .bound
  | fuel + 1, cs =>
    match parseValue fuel cs with
    | .error e => .error e
    | .ok (v, rest) =>
      match skipWhiteSpace rest with
      | [] => .error .invalidJson
      | c :: rest1 =>
        if c.toNat = 93 then .ok ([v], rest1)
        else if c.toNat = 44 then
          match parseElements fuel rest1 with
          | .ok (vs, rest2) => .ok (v :: vs, rest2)
          | .error e => .error e
        else .error .invalidJson
termination_by structural fuel => fuel
/-- The members of an object, read from its first key up to its closing brace; `members`
are the properties defined so far. -/
def parseMembers : Nat → List (String × Json) → List Char
    → Except Fault (List (String × Json) × List Char)
  | 0, _, _ => .error .bound
  | fuel + 1, members, cs =>
    match skipWhiteSpace cs with
    | [] => .error .invalidJson
    | q :: rest =>
      if q.toNat = 34 then
        match parseStringChars rest with
        | .error e => .error e
        | .ok (key, rest1) =>
          match skipWhiteSpace rest1 with
          | [] => .error .invalidJson
          | colon :: rest2 =>
            if colon.toNat = 58 then
              match parseValue fuel rest2 with
              | .error e => .error e
              | .ok (v, rest3) =>
                match skipWhiteSpace rest3 with
                | [] => .error .invalidJson
                | c :: rest4 =>
                  if c.toNat = 125 then .ok (defineProperty members ⟨key⟩ v, rest4)
                  else if c.toNat = 44 then
                    parseMembers fuel (defineProperty members ⟨key⟩ v) rest4
                  else .error .invalidJson
            else .error .invalidJson
      else .error .invalidJson
termination_by structural fuel => fuel
end

/-- `JSON.parse(text)`: the value of the text, which is one value between white space.
The recursion bound is twice the length of the text plus one, more than any text needs. -/
def parse (text : String) : Except Fault Json :=
  match parseValue (2 * text.data.length + 1) text.data with
  | .error e => .error e
  | .ok (v, rest) => if (skipWhiteSpace rest).isEmpty then .ok v else .error .invalidJson

end JSON

/-! ## The store as a text file -/

/-- The value of a task record: its five properties in the order `addTask` creates
them. -/
def Task.toJson (t : Task) : Json :=
  .obj [("id", .num t.id), ("description", .str t.description), ("status", .str t.status),
    ("createdAt", .str t.createdAt), ("updatedAt", .str t.updatedAt)]

/-- The value of a sequence of task records. -/
def tasksToJson (tasks : List Task) : Json :=
  .arr (tasks.map Task.toJson)

namespace Raw

/-- Ensure tasks.json exists, on the text of the file (`none` when the file is absent). -/
def initializeFile (file : Option String) : Option String :=
  match file with
  | some data => some data
  | none => some (JSON.stringify (.arr []) 0)

/-- Read tasks from file, on the text of the file: the value returned or the error thrown,
and the text of the file afterwards. -/
def readTasks (file : Option String) : Except Fault Json × Option String :=
  match file with
  | some data => (JSON.parse data, some data)
  | none => (.ok (.arr []), some (JSON.stringify (.arr []) 0))

/-- Write tasks to file, on the text of the file. -/
def writeTasks (tasks : Json) (_file : Option String) : Option String :=
  some (JSON.stringify tasks 2)

end Raw

/-- The text `JSON.stringify(tasks, null, 2)` writes for one task record inside the
array. -/
def taskText (t : Task) : List Char :=
  JSON.SerializeJSONProperty [' ', ' '] [' ', ' '] t.toJson

/-- A store holding one task, written on one line. -/
def compactText : String :=
  "[\x7b\"id\":1,\"description\":\"a\",\"status\":\"todo\",\"createdAt\":\"2023-12-31T00:00:00.000Z\",\"updatedAt\":\"2023-12-31T00:00:00.000Z\"\x7d]"

/-- What the recursion bound needs from a parse result on the text `cs`: a value comes with
a rest that is shorter than `cs`, and a fault is not `Fault.bound`. -/
def Progress {α : Type} (cs : List Char) : Except Fault (α × List Char) → Prop
  | .ok (_, rest) => rest.length < cs.length
  | .error e => e ≠ .bound

/-! ## Lemmas on `generateId` -/

theorem roundToDouble_of_le (n : Int) (h : n.natAbs ≤ 9007199254740992) : roundToDouble n = n := by
  unfold roundToDouble
  simp only
  rw [if_pos h]

/-- Rounding at work: `2^53 + 1` is no number and lies half way between `2^53` and
`2^53 + 2`; the tie goes to `2^53`, whose significand is even. -/
theorem roundToDouble_examples :
    roundToDouble 9007199254740993 = 9007199254740992 ∧
    roundToDouble 9007199254740995 = 9007199254740996 ∧
    roundToDouble (-9007199254740993) = -9007199254740992 ∧
    roundToDouble 1000000000000000000001 = 1000000000000000000000 ∧
    numberAdd 9007199254740992 1 = 9007199254740992 ∧
    numberAdd 9007199254740991 1 = 9007199254740992 ∧
    parseInt "9007199254740993" = some 9007199254740992 ∧
    parseInt "0x20000000000001" = some 9007199254740992 := by
  refine ⟨by decide, by decide, by decide, by decide, by decide, by decide, by decide,
    by decide⟩

theorem largest_cons (x y : Int) (ys : List Int) : largest x (y :: ys) = largest (max x y) ys := rfl

theorem le_largest (x : Int) (xs : List Int) : x ≤ largest x xs := by
  induction xs generalizing x with
  | nil => simp [largest]
  | cons y ys ih => rw [largest_cons]; exact le_trans (le_max_left x y) (ih _)

theorem le_largest_of_mem (x : Int) (xs : List Int) (y : Int) (hy : y ∈ xs) :
    y ≤ largest x xs := by
  induction xs generalizing x with
  | nil => simp at hy
  | cons z zs ih =>
    rw [largest_cons]
    rcases List.mem_cons.1 hy with rfl | h
    · exact le_trans (le_max_right x y) (le_largest _ _)
    · exact ih _ h

theorem largest_mem (x : Int) (xs : List Int) : largest x xs ∈ x :: xs := by
  induction xs generalizing x with
  | nil => simp [largest]
  | cons y ys ih =>
    rw [largest_cons]
    rcases List.mem_cons.1 (ih (max x y)) with h | h
    · rcases max_choice x y with hm | hm
      · rw [h, hm]; simp
      · rw [h, hm]; simp
    · exact List.mem_cons_of_mem _ (List.mem_cons_of_mem _ h)

theorem lt_specId (tasks : List Task) (t : Task) (ht : t ∈ tasks) :
    t.id < specId tasks := by
  unfold specId
  have hm : t.id ∈ tasks.map (fun task => task.id) := List.mem_map_of_mem _ ht
  cases hl : tasks.map (fun task => task.id) with
  | nil => rw [hl] at hm; simp at hm
  | cons x xs =>
    rw [hl] at hm
    simp only
    rcases List.mem_cons.1 hm with h | h
    · have := le_largest x xs
      omega
    · have := le_largest_of_mem x xs _ h
      omega

theorem specId_eq_succ_max (tasks : List Task) (hne : tasks ≠ []) :
    ∃ m ∈ tasks, (∀ t ∈ tasks, t.id ≤ m.id) ∧ specId tasks = m.id + 1 := by
  cases hl : tasks.map (fun task => task.id) with
  | nil => exact absurd (List.map_eq_nil_iff.1 hl) hne
  | cons x xs =>
    have hmem : largest x xs ∈ tasks.map (fun task => task.id) := hl ▸ largest_mem x xs
    obtain ⟨m, hm, hmid⟩ := List.mem_map.1 hmem
    have hgen : specId tasks = largest x xs + 1 := by
      unfold specId; rw [hl]
    refine ⟨m, hm, ?_, ?_⟩
    · intro t ht
      have := lt_specId tasks t ht
      omega
    · rw [hgen, hmid]

theorem specId_of_max (tasks : List Task) (m : Task) (hm : m ∈ tasks)
    (hmax : ∀ t ∈ tasks, t.id ≤ m.id) : specId tasks = m.id + 1 := by
  obtain ⟨m', hm', hmax', hgen⟩ := specId_eq_succ_max tasks (List.ne_nil_of_mem hm)
  have h1 := hmax m' hm'
  have h2 := hmax' m hm
  omega

theorem specId_of_safe (tasks : List Task) (hsafe : SafeIds tasks) :
    (specId tasks).natAbs ≤ 9007199254740992 := by
  by_cases hne : tasks = []
  · subst hne; decide
  · obtain ⟨m, hm, _, hgen⟩ := specId_eq_succ_max tasks hne
    have := hsafe m hm
    omega

/-- Within the argument limit, `generateId` returns the number nearest to the largest id
plus one (to 1 on an empty store). -/
theorem generateId_of_fit (maxArguments : Nat) (tasks : List Task)
    (hfit : tasks.length ≤ maxArguments) :
    generateId maxArguments tasks = .ok (roundToDouble (specId tasks)) := by
  unfold generateId specId
  cases hl : tasks.map (fun task => task.id) with
  | nil => rfl
  | cons x xs =>
    have hlen : (x :: xs).length = tasks.length := by rw [← hl, List.length_map]
    simp only [mathMax]
    rw [if_neg (by rw [hlen]; omega)]
    rfl

/-- Beyond the argument limit, `generateId` throws. -/
theorem generateId_of_excess (maxArguments : Nat) (tasks : List Task)
    (hover : maxArguments < tasks.length) :
    generateId maxArguments tasks = .error rangeErrorMessage := by
  unfold generateId
  cases hl : tasks.map (fun task => task.id) with
  | nil =>
    have : tasks = [] := List.map_eq_nil_iff.1 hl
    subst this
    simp at hover
  | cons x xs =>
    have hlen : (x :: xs).length = tasks.length := by rw [← hl, List.length_map]
    simp only [mathMax]
    rw [if_pos (by rw [hlen]; exact hover)]

theorem generateId_of_safe (maxArguments : Nat) (tasks : List Task)
    (hfit : tasks.length ≤ maxArguments) (hsafe : SafeIds tasks) :
    generateId maxArguments tasks = .ok (specId tasks) := by
  rw [generateId_of_fit maxArguments tasks hfit, roundToDouble_of_le _ (specId_of_safe tasks hsafe)]

/-! ## What each operation leaves in the file -/

theorem addTask_of_ok (d : String) (w : World) (tasks : List Task) (id : Int)
    (h : w.file = some tasks) (hg : generateId w.maxArguments tasks = .ok id) :
    (addTask d w).file = some (tasks ++ [⟨id, d, "todo", w.clock 0, w.clock 1⟩]) ∧
    (addTask d w).writes = w.writes ++ [tasks ++ [⟨id, d, "todo", w.clock 0, w.clock 1⟩]] ∧
    (addTask d w).thrown = none ∧
    (addTask d w).maxArguments = w.maxArguments := by
  simp [addTask, readTasks, h, hg, writeTasks, writeFile, consoleLog, getCurrentDate]

theorem addTask_of_error (d : String) (w : World) (tasks : List Task) (message : String)
    (h : w.file = some tasks) (hg : generateId w.maxArguments tasks = .error message) :
    addTask d w = { w with thrown := some message } := by
  simp [addTask, readTasks, h, hg]

theorem addTask_of_excess (d : String) (w : World) (tasks : List Task)
    (h : w.file = some tasks) (hover : w.maxArguments < tasks.length) :
    addTask d w = { w with thrown := some rangeErrorMessage } :=
  addTask_of_error d w tasks _ h (generateId_of_excess _ _ hover)

theorem addTask_file (d : String) (w : World) (tasks : List Task) (h : w.file = some tasks)
    (hfit : tasks.length ≤ w.maxArguments) (hsafe : SafeIds tasks) :
    (addTask d w).file = some (tasks ++
      [⟨specId tasks, d, "todo", w.clock 0, w.clock 1⟩]) :=
  (addTask_of_ok d w tasks _ h (generateId_of_safe _ _ hfit hsafe)).1

theorem addTask_writes (d : String) (w : World) (tasks : List Task) (h : w.file = some tasks)
    (hfit : tasks.length ≤ w.maxArguments) (hsafe : SafeIds tasks) :
    (addTask d w).writes = w.writes ++ [tasks ++
      [⟨specId tasks, d, "todo", w.clock 0, w.clock 1⟩]] :=
  (addTask_of_ok d w tasks _ h (generateId_of_safe _ _ hfit hsafe)).2.1

/-- C1 (as the code behaves): on a store `tasks` that has no more tasks than one call takes
arguments and whose ids are safe integers, `add` writes the old sequence followed by exactly
one new task; the new task has the given description, status `todo`, and its id is 1 on an
empty store and otherwise one more than the largest id of the old store. -/
theorem addTask_appends_one (d : String) (w : World) (tasks : List Task)
    (h : w.file = some tasks) (hfit : tasks.length ≤ w.maxArguments) (hsafe : SafeIds tasks) :
    ∃ newTask : Task,
      (addTask d w).file = some (tasks ++ [newTask]) ∧
      (addTask d w).writes = w.writes ++ [tasks ++ [newTask]] ∧
      newTask.description = d ∧ newTask.status = "todo" ∧
      (tasks = [] → newTask.id = 1) ∧
      (tasks ≠ [] → ∃ m ∈ tasks, (∀ t ∈ tasks, t.id ≤ m.id) ∧ newTask.id = m.id + 1) := by
  refine ⟨_, addTask_file d w tasks h hfit hsafe, addTask_writes d w tasks h hfit hsafe,
    rfl, rfl, ?_, ?_⟩
  · rintro rfl; rfl
  · intro hne; exact specId_eq_succ_max tasks hne

theorem addTask_appends_one_witness :
    (sampleWorld [sampleTask 4 "a", sampleTask 2 "b"]).file
      = some [sampleTask 4 "a", sampleTask 2 "b"] ∧
    [sampleTask 4 "a", sampleTask 2 "b"].length
      ≤ (sampleWorld [sampleTask 4 "a", sampleTask 2 "b"]).maxArguments ∧
    SafeIds [sampleTask 4 "a", sampleTask 2 "b"] ∧
    ∃ newTask : Task,
      (addTask "c" (sampleWorld [sampleTask 4 "a", sampleTask 2 "b"])).file
        = some ([sampleTask 4 "a", sampleTask 2 "b"] ++ [newTask]) ∧
      (addTask "c" (sampleWorld [sampleTask 4 "a", sampleTask 2 "b"])).writes
        = (sampleWorld [sampleTask 4 "a", sampleTask 2 "b"]).writes
          ++ [[sampleTask 4 "a", sampleTask 2 "b"] ++ [newTask]] ∧
      newTask.description = "c" ∧ newTask.status = "todo" ∧
      ([sampleTask 4 "a", sampleTask 2 "b"] = [] → newTask.id = 1) ∧
      ([sampleTask 4 "a", sampleTask 2 "b"] ≠ [] →
        ∃ m ∈ [sampleTask 4 "a", sampleTask 2 "b"],
          (∀ t ∈ [sampleTask 4 "a", sampleTask 2 "b"], t.id ≤ m.id) ∧ newTask.id = m.id + 1) :=
  ⟨rfl, by decide, by decide,
    addTask_appends_one "c" (sampleWorld [sampleTask 4 "a", sampleTask 2 "b"])
      [sampleTask 4 "a", sampleTask 2 "b"] rfl (by decide) (by decide)⟩

/-- C1 fails as stated.  In the store whose one task has id `2^53`, the sum
`Math.max(...) + 1` is rounded back to `2^53`, so the task that `add` appends has id `2^53`,
not the largest id plus one.  In a store of more tasks than one call takes arguments
(125001 tasks against a limit of 125000), `Math.max(...)` throws, and `add` appends nothing:
the file and the write log stay as they were. -/
theorem addTask_id_not_largest_plus_one :
    (addTask "b" (sampleWorld [sampleTask 9007199254740992 "a"])).file
      = some [sampleTask 9007199254740992 "a",
          ⟨9007199254740992, "b", "todo", "2024-01-01T00:00:00.000Z",
            "2024-01-01T00:00:00.001Z"⟩] ∧
    (9007199254740992 : Int) ≠ 9007199254740992 + 1 ∧
    (addTask "b" (sampleWorld (List.replicate 125001 (sampleTask 1 "a")))).file
      = some (List.replicate 125001 (sampleTask 1 "a")) ∧
    (addTask "b" (sampleWorld (List.replicate 125001 (sampleTask 1 "a")))).writes = [] ∧
    (addTask "b" (sampleWorld (List.replicate 125001 (sampleTask 1 "a")))).thrown
      = some rangeErrorMessage := by
  have hx := addTask_of_excess "b" (sampleWorld (List.replicate 125001 (sampleTask 1 "a")))
    (List.replicate 125001 (sampleTask 1 "a")) rfl
    (by rw [List.length_replicate]; decide)
  refine ⟨by decide, by decide, ?_, ?_, ?_⟩
  · rw [hx]; rfl
  · rw [hx]; rfl
  · rw [hx]

/-! ## The file after each operation -/

theorem tasksOf_of_file (w : World) (tasks : List Task) (h : w.file = some tasks) :
    tasksOf w = tasks := by
  simp [tasksOf, readTasks, h]

theorem readTasks_file (w : World) : (readTasks w).2.file = some (tasksOf w) := by
  unfold tasksOf readTasks
  cases h : w.file <;> simp [writeFile, h]

theorem readTasks_clock (w : World) : (readTasks w).2.clock = w.clock := by
  unfold readTasks
  cases h : w.file <;> simp [writeFile]

theorem initializeFile_file (w : World) : (initializeFile w).file = some (tasksOf w) := by
  unfold initializeFile tasksOf readTasks
  cases h : w.file <;> simp [writeFile, h]

theorem initializeFile_of_file (w : World) (tasks : List Task) (h : w.file = some tasks) :
    initializeFile w = w := by
  simp [initializeFile, h]

theorem modifyFirst_eq_self (p : Task → Bool) (f : Task → Task) (l : List Task)
    (h : ∀ t ∈ l, p t = false) : modifyFirst p f l = l := by
  induction l with
  | nil => rfl
  | cons t ts ih =>
    have ht : p t = false := h t (List.mem_cons_self _ _)
    simp [modifyFirst, ht, ih (fun u hu => h u (List.mem_cons_of_mem _ hu))]

theorem readTasks_maxArguments (w : World) : (readTasks w).2.maxArguments = w.maxArguments := by
  unfold readTasks
  cases h : w.file <;> simp [writeFile]

theorem addTask_readTasks (d : String) (w : World) : addTask d (readTasks w).2 = addTask d w := by
  rcases w with ⟨file, clock, out, err, writes, limit, thrown⟩
  cases file <;> rfl

/-- The two outcomes of `add`: it throws and the file stays as it is, or it appends one task
whose id is the number nearest to the largest id plus one. -/
theorem addTask_file_cases (d : String) (w : World) :
    (addTask d w).file = some (tasksOf w) ∨
    (addTask d w).file = some (tasksOf w ++
      [⟨roundToDouble (specId (tasksOf w)), d, "todo", w.clock 0, w.clock 1⟩]) := by
  rw [← addTask_readTasks]
  have hf := readTasks_file w
  by_cases hfit : (tasksOf w).length ≤ w.maxArguments
  · right
    have hg := generateId_of_fit (readTasks w).2.maxArguments (tasksOf w)
      (by rw [readTasks_maxArguments]; exact hfit)
    have := (addTask_of_ok d _ _ _ hf hg).1
    rw [readTasks_clock] at this
    exact this
  · left
    have hg := generateId_of_excess (readTasks w).2.maxArguments (tasksOf w)
      (by rw [readTasks_maxArguments]; omega)
    rw [addTask_of_error d _ _ _ hf hg]
    exact hf

theorem addTask_maxArguments (d : String) (w : World) :
    (addTask d w).maxArguments = w.maxArguments := by
  rw [← addTask_readTasks]
  have hf := readTasks_file w
  cases hg : generateId (readTasks w).2.maxArguments (tasksOf w) with
  | ok id => rw [(addTask_of_ok d _ _ _ hf hg).2.2.2, readTasks_maxArguments]
  | error message => rw [addTask_of_error d _ _ _ hf hg]; exact readTasks_maxArguments w

theorem catchError_file (w : World) : (catchError w).file = w.file := by
  unfold catchError
  cases w.thrown <;> rfl

theorem catchError_writes (w : World) : (catchError w).writes = w.writes := by
  unfold catchError
  cases w.thrown <;> rfl

theorem tasksOf_catchError (w : World) : tasksOf (catchError w) = tasksOf w := by
  unfold tasksOf readTasks
  rw [catchError_file]
  cases w.file <;> rfl

theorem deleteTask_maxArguments (s : String) (w : World) :
    (deleteTask s w).maxArguments = w.maxArguments := by
  unfold deleteTask
  simp only
  split <;> simp [consoleError, consoleLog, writeTasks, writeFile, readTasks_maxArguments]

theorem deleteTask_file (s : String) (w : World) :
    (deleteTask s w).file = some ((tasksOf w).filter (fun t => !idIs s t)) := by
  unfold deleteTask
  simp only
  split
  · rename_i h
    have h' : List.filter (fun t => !idIs s t) (tasksOf w) = tasksOf w :=
      List.filter_eq_self.2 (List.filter_length_eq_length.1 h)
    simp [consoleError, readTasks_file, h']
  · simp [consoleLog, writeTasks, writeFile, tasksOf]

theorem updateTask_file (s d : String) (w : World) :
    (updateTask s d w).file = some (modifyFirst (idIs s)
      (fun task => { task with description := d, updatedAt := w.clock 0 }) (tasksOf w)) := by
  unfold updateTask
  simp only
  split
  · rename_i h
    have h' : ∀ t ∈ tasksOf w, idIs s t = false := by
      intro t ht
      have := List.find?_eq_none.1 h t ht
      simpa using this
    simp [consoleError, readTasks_file, modifyFirst_eq_self _ _ _ h']
  · simp [consoleLog, writeTasks, writeFile, tasksOf, getCurrentDate, readTasks_clock]

theorem markTask_file (s status : String) (w : World) :
    (markTask s status w).file = some (modifyFirst (idIs s)
      (fun task => { task with status := status, updatedAt := w.clock 0 }) (tasksOf w)) := by
  unfold markTask
  simp only
  split
  · rename_i h
    have h' : ∀ t ∈ tasksOf w, idIs s t = false := by
      intro t ht
      have := List.find?_eq_none.1 h t ht
      simpa using this
    simp [consoleError, readTasks_file, modifyFirst_eq_self _ _ _ h']
  · simp [consoleLog, writeTasks, writeFile, tasksOf, getCurrentDate, readTasks_clock]

theorem foldl_consoleLog_file (l : List Task) (w : World) :
    (l.foldl (fun w task => consoleLog (taskLine task) w) w).file = w.file := by
  induction l generalizing w with
  | nil => rfl
  | cons t ts ih => rw [List.foldl_cons, ih]; rfl

theorem listTasks_file (status : Option String) (w : World) :
    (listTasks status w).file = some (tasksOf w) := by
  unfold listTasks
  simp only
  split
  · simp [consoleLog, readTasks_file]
  · rw [foldl_consoleLog_file]; simp [consoleLog, readTasks_file]

theorem consoleError_file (line : String) (w : World) : (consoleError line w).file = w.file := rfl

/-! ## Identity of tasks -/

theorem modifyFirst_map_id (p : Task → Bool) (f : Task → Task) (l : List Task)
    (hf : ∀ t, (f t).id = t.id) :
    (modifyFirst p f l).map (fun t => t.id) = l.map (fun t => t.id) := by
  induction l with
  | nil => rfl
  | cons t ts ih =>
    unfold modifyFirst
    split
    · simp [hf]
    · simp [ih]

theorem UniquePositiveIds.of_map_id_eq {l l' : List Task}
    (h : l'.map (fun t => t.id) = l.map (fun t => t.id)) (hl : UniquePositiveIds l) :
    UniquePositiveIds l' := by
  refine ⟨h ▸ hl.1, ?_⟩
  intro t ht
  have hm : t.id ∈ l.map (fun t => t.id) := h ▸ List.mem_map_of_mem (fun t => t.id) ht
  obtain ⟨u, hu, hid⟩ := List.mem_map.1 hm
  have := hl.2 u hu
  omega

theorem UniquePositiveIds.filter (p : Task → Bool) {l : List Task} (hl : UniquePositiveIds l) :
    UniquePositiveIds (l.filter p) := by
  refine ⟨?_, fun t ht => hl.2 t (List.mem_of_mem_filter ht)⟩
  exact List.Nodup.sublist ((List.filter_sublist l).map _) hl.1

theorem UniquePositiveIds.append_generated (d status c u : String) {l : List Task}
    (hl : UniquePositiveIds l) :
    UniquePositiveIds (l ++ [⟨specId l, d, status, c, u⟩]) := by
  constructor
  · rw [List.map_append, List.nodup_append]
    refine ⟨hl.1, by simp, ?_⟩
    intro a ha hb
    obtain ⟨t, ht, rfl⟩ := List.mem_map.1 ha
    have hlt := lt_specId l t ht
    simp at hb
    omega
  · intro t ht
    rcases List.mem_append.1 ht with h | h
    · exact hl.2 t h
    · have ht' : t = ⟨specId l, d, status, c, u⟩ := by simpa using h
      subst ht'
      show 0 < specId l
      cases l with
      | nil => decide
      | cons x xs =>
        have h1 := lt_specId (x :: xs) x (List.mem_cons_self _ _)
        have h2 := hl.2 x (List.mem_cons_self _ _)
        omega

theorem storeOk_of_file (w' : World) (l : List Task) (h : w'.file = some l)
    (hl : UniquePositiveIds l) : StoreOk w' := by
  unfold StoreOk
  rw [tasksOf_of_file w' l h]
  exact hl

theorem storeOk_addTask (d : String) (w : World) (hw : StoreOk w)
    (hsafe : SafeIds (tasksOf w)) : StoreOk (addTask d w) := by
  rcases addTask_file_cases d w with h | h
  · exact storeOk_of_file _ _ h hw
  · rw [roundToDouble_of_le _ (specId_of_safe _ hsafe)] at h
    exact storeOk_of_file _ _ h (hw.append_generated _ _ _ _)

theorem storeOk_catchError (w : World) (hw : StoreOk w) : StoreOk (catchError w) := by
  unfold StoreOk
  rw [tasksOf_catchError]
  exact hw

theorem storeOk_updateTask (s d : String) (w : World) (hw : StoreOk w) :
    StoreOk (updateTask s d w) :=
  storeOk_of_file _ _ (updateTask_file s d w)
    (UniquePositiveIds.of_map_id_eq (modifyFirst_map_id _ _ _ (fun _ => rfl)) hw)

theorem storeOk_markTask (s status : String) (w : World) (hw : StoreOk w) :
    StoreOk (markTask s status w) :=
  storeOk_of_file _ _ (markTask_file s status w)
    (UniquePositiveIds.of_map_id_eq (modifyFirst_map_id _ _ _ (fun _ => rfl)) hw)

theorem storeOk_deleteTask (s : String) (w : World) (hw : StoreOk w) :
    StoreOk (deleteTask s w) :=
  storeOk_of_file _ _ (deleteTask_file s w) (hw.filter _)

theorem storeOk_initializeFile (w : World) (hw : StoreOk w) : StoreOk (initializeFile w) :=
  storeOk_of_file _ _ (initializeFile_file w) hw

theorem storeOk_consoleError (line : String) (w : World) (hw : StoreOk w) :
    StoreOk (consoleError line w) := by
  have h : tasksOf (consoleError line w) = tasksOf w := by
    unfold tasksOf readTasks consoleError
    cases w.file <;> rfl
  unfold StoreOk
  rw [h]
  exact hw

theorem storeOk_listTasks (status : Option String) (w : World) (hw : StoreOk w) :
    StoreOk (listTasks status w) :=
  storeOk_of_file _ _ (listTasks_file status w) hw

/-- While the ids of the store are safe integers, every command line keeps them pairwise
distinct and positive. -/
theorem storeOk_main (args : List String) (w : World) (hw : StoreOk w)
    (hsafe : SafeIds (tasksOf w)) : StoreOk (main args w) := by
  have hi := storeOk_initializeFile w hw
  have hsafei : SafeIds (tasksOf (initializeFile w)) := by
    rw [tasksOf_of_file _ _ (initializeFile_file w)]; exact hsafe
  unfold main
  simp only
  split
  · split
    · exact storeOk_consoleError _ _ hi
    · exact storeOk_catchError _ (storeOk_addTask _ _ hi hsafei)
  · split
    · split
      · exact storeOk_consoleError _ _ hi
      · split
        · exact storeOk_consoleError _ _ hi
        · exact storeOk_updateTask _ _ _ hi
    · split
      · split
        · exact storeOk_consoleError _ _ hi
        · exact storeOk_deleteTask _ _ hi
      · split
        · split
          · exact storeOk_consoleError _ _ hi
          · exact storeOk_markTask _ _ _ hi
        · split
          · split
            · exact storeOk_consoleError _ _ hi
            · exact storeOk_markTask _ _ _ hi
          · split
            · split
              · split
                · exact storeOk_listTasks _ _ hi
                · exact storeOk_consoleError _ _ hi
              · exact storeOk_listTasks _ _ hi
            · exact storeOk_consoleError _ _ hi

/-- C3 fails in the code.  The store whose one task has id `2^53` has pairwise distinct
positive ids; `generateId` computes `2^53 + 1` in number arithmetic, which is `2^53` again,
so the command `add b` writes a second task with id `2^53` and the ids of the store are no
longer pairwise distinct. -/
theorem add_command_repeats_id :
    StoreOk (sampleWorld [sampleTask 9007199254740992 "a"]) ∧
    generateId 125000 [sampleTask 9007199254740992 "a"] = .ok 9007199254740992 ∧
    (main ["add", "b"] (sampleWorld [sampleTask 9007199254740992 "a"])).file
      = some [sampleTask 9007199254740992 "a",
          ⟨9007199254740992, "b", "todo", "2024-01-01T00:00:00.000Z",
            "2024-01-01T00:00:00.001Z"⟩] ∧
    ¬ StoreOk (main ["add", "b"] (sampleWorld [sampleTask 9007199254740992 "a"])) := by
  refine ⟨by decide, rfl, by decide, by decide⟩

/-! ## Fresh ids -/

theorem deleteTask_filter_of_parse (s : String) (i : Int) (hs : parseInt s = some i)
    (l : List Task) :
    l.filter (fun t => !idIs s t) = l.filter (fun t => decide (t.id ≠ i)) := by
  apply List.filter_congr
  intro t _
  by_cases ht : t.id = i
  · simp [idIs, hs, ht]
  · have hne : i ≠ t.id := fun e => ht e.symm
    simp [idIs, hs, ht, hne]

theorem safeIds_filter (p : Task → Bool) {l : List Task} (hl : SafeIds l) :
    SafeIds (l.filter p) :=
  fun t ht => hl t (List.mem_of_mem_filter ht)

/-- C2 (as the code behaves): take a store that is within the argument limit and whose ids
are safe integers, and an id `i` present in it.  After deleting `i` and adding a task, the
new task's id is `i` again exactly when the largest id that remains is `i - 1`, or when
nothing remains and `i = 1`; in particular, when the store holds an id larger than `i`,
the new id is larger than `i`. -/
theorem delete_then_add_reuses_only_after_largest (w : World) (tasks : List Task)
    (s d : String) (i : Int)
    (h : w.file = some tasks) (hs : parseInt s = some i) (hpresent : ∃ t ∈ tasks, t.id = i)
    (hsafe : SafeIds tasks) (hfit : tasks.length ≤ w.maxArguments + 1) :
    ∃ newTask : Task,
      (addTask d (deleteTask s w)).file
        = some (tasks.filter (fun t => decide (t.id ≠ i)) ++ [newTask]) ∧
      (newTask.id = i ↔
        (tasks.filter (fun t => decide (t.id ≠ i)) = [] ∧ i = 1) ∨
        ∃ m ∈ tasks.filter (fun t => decide (t.id ≠ i)),
          (∀ t ∈ tasks.filter (fun t => decide (t.id ≠ i)), t.id ≤ m.id) ∧ m.id + 1 = i) ∧
      ((∃ t ∈ tasks, i < t.id) → i < newTask.id) := by
  have hdel : (deleteTask s w).file = some (tasks.filter (fun t => decide (t.id ≠ i))) := by
    rw [deleteTask_file, tasksOf_of_file w tasks h, deleteTask_filter_of_parse s i hs]
  have hlen : (tasks.filter (fun t => decide (t.id ≠ i))).length < tasks.length := by
    rw [List.length_filter_lt_length_iff_exists]
    obtain ⟨t, ht, hid⟩ := hpresent
    exact ⟨t, ht, by simp [hid]⟩
  have hfit' : (tasks.filter (fun t => decide (t.id ≠ i))).length
      ≤ (deleteTask s w).maxArguments := by
    rw [deleteTask_maxArguments]; omega
  refine ⟨_, addTask_file d _ _ hdel hfit' (safeIds_filter _ hsafe), ?_, ?_⟩
  · show specId (tasks.filter (fun t => decide (t.id ≠ i))) = i ↔ _
    constructor
    · intro hid
      by_cases hne : tasks.filter (fun t => decide (t.id ≠ i)) = []
      · left
        refine ⟨hne, ?_⟩
        rw [hne] at hid
        exact hid.symm
      · right
        obtain ⟨m, hm, hmax, hgen⟩ := specId_eq_succ_max _ hne
        exact ⟨m, hm, hmax, by omega⟩
    · rintro (⟨hnil, hi⟩ | ⟨m, hm, hmax, hi⟩)
      · rw [hnil, hi]; rfl
      · rw [specId_of_max _ m hm hmax]; exact hi
  · rintro ⟨t, ht, hlt⟩
    have hmem : t ∈ tasks.filter (fun t => decide (t.id ≠ i)) := by
      rw [List.mem_filter]
      refine ⟨ht, ?_⟩
      simp only [ne_eq, decide_not, Bool.not_eq_eq_eq_not, Bool.not_true, decide_eq_false_iff_not]
      omega
    have := lt_specId _ t hmem
    show i < specId _
    omega

theorem delete_then_add_reuses_only_after_largest_witness :
    (sampleWorld [sampleTask 1 "a", sampleTask 5 "b"]).file
      = some [sampleTask 1 "a", sampleTask 5 "b"] ∧
    parseInt "5" = some 5 ∧
    (∃ t ∈ [sampleTask 1 "a", sampleTask 5 "b"], t.id = 5) ∧
    SafeIds [sampleTask 1 "a", sampleTask 5 "b"] ∧
    [sampleTask 1 "a", sampleTask 5 "b"].length
      ≤ (sampleWorld [sampleTask 1 "a", sampleTask 5 "b"]).maxArguments + 1 ∧
    (addTask "d" (deleteTask "5" (sampleWorld [sampleTask 1 "a", sampleTask 5 "b"]))).file
      = some [sampleTask 1 "a",
          ⟨2, "d", "todo", "2024-01-01T00:00:00.000Z", "2024-01-01T00:00:00.001Z"⟩] ∧
    ∃ newTask : Task,
      (addTask "d" (deleteTask "5" (sampleWorld [sampleTask 1 "a", sampleTask 5 "b"]))).file
        = some ([sampleTask 1 "a", sampleTask 5 "b"].filter (fun t => decide (t.id ≠ 5))
            ++ [newTask]) ∧
      (newTask.id = 5 ↔
        ([sampleTask 1 "a", sampleTask 5 "b"].filter (fun t => decide (t.id ≠ 5)) = [] ∧
          (5 : Int) = 1) ∨
        ∃ m ∈ [sampleTask 1 "a", sampleTask 5 "b"].filter (fun t => decide (t.id ≠ 5)),
          (∀ t ∈ [sampleTask 1 "a", sampleTask 5 "b"].filter (fun t => decide (t.id ≠ 5)),
            t.id ≤ m.id) ∧ m.id + 1 = 5) ∧
      ((∃ t ∈ [sampleTask 1 "a", sampleTask 5 "b"], (5 : Int) < t.id) → 5 < newTask.id) :=
  ⟨rfl, by decide, by decide, by decide, by decide, by decide,
    delete_then_add_reuses_only_after_largest _ _ "5" "d" 5 rfl (by decide) (by decide)
      (by decide) (by decide)⟩

/-- C2 fails as stated: in the store with ids 1, 2, 3 (pairwise distinct), deleting the task
with id 3 and adding a task creates a task whose id is 3 again. -/
theorem delete_then_add_reuses_largest_id :
    ([sampleTask 1 "a", sampleTask 2 "b", sampleTask 3 "c"].map (fun t => t.id)).Nodup ∧
    (∃ t ∈ [sampleTask 1 "a", sampleTask 2 "b", sampleTask 3 "c"], t.id = 3) ∧
    parseInt "3" = some 3 ∧
    (addTask "d" (deleteTask "3"
        (sampleWorld [sampleTask 1 "a", sampleTask 2 "b", sampleTask 3 "c"]))).file
      = some [sampleTask 1 "a", sampleTask 2 "b",
          ⟨3, "d", "todo", "2024-01-01T00:00:00.000Z", "2024-01-01T00:00:00.001Z"⟩] := by
  refine ⟨by decide, by decide, by decide, by decide⟩

/-! ## Successive adds -/

theorem specId_of_ids_range (tasks : List Task) (n : Nat)
    (h : tasks.map (fun t => t.id) = (List.range n).map (fun k : Nat => (k : Int) + 1)) :
    specId tasks = (n : Int) + 1 := by
  cases n with
  | zero =>
    have : tasks = [] := by simpa using h
    subst this
    rfl
  | succ m =>
    have hmem : ((m : Int) + 1) ∈ tasks.map (fun t => t.id) := by
      rw [h]
      exact List.mem_map.2 ⟨m, List.mem_range.2 (Nat.lt_succ_self m), rfl⟩
    obtain ⟨t, ht, hid⟩ := List.mem_map.1 hmem
    have hle : ∀ u ∈ tasks, u.id ≤ t.id := by
      intro u hu
      have hu' : u.id ∈ tasks.map (fun t => t.id) := List.mem_map_of_mem (fun t => t.id) hu
      rw [h] at hu'
      obtain ⟨k, hk, hkid⟩ := List.mem_map.1 hu'
      have := List.mem_range.1 hk
      omega
    rw [specId_of_max tasks t ht hle]
    push_cast
    omega

theorem addAll_cons (d : String) (ds : List String) (w : World) :
    addAll (d :: ds) w = addAll ds (addTask d w) := rfl

theorem addAll_append (ds es : List String) (w : World) :
    addAll (ds ++ es) w = addAll es (addAll ds w) := by
  unfold addAll
  rw [List.foldl_append]

theorem addAll_maxArguments (ds : List String) (w : World) :
    (addAll ds w).maxArguments = w.maxArguments := by
  induction ds generalizing w with
  | nil => rfl
  | cons d ds ih => rw [addAll_cons, ih, addTask_maxArguments]

theorem addAll_from (ds : List String) (w : World) (tasks : List Task)
    (h : w.file = some tasks)
    (hids : tasks.map (fun t => t.id) = (List.range tasks.length).map (fun k : Nat => (k : Int) + 1))
    (hfit : tasks.length + ds.length ≤ w.maxArguments + 1)
    (hsafe : tasks.length + ds.length ≤ 9007199254740992) :
    ∃ tasks', (addAll ds w).file = some tasks' ∧
      tasks'.length = tasks.length + ds.length ∧
      tasks'.map (fun t => t.id) = (List.range tasks'.length).map (fun k : Nat => (k : Int) + 1) ∧
      tasks'.map (fun t => t.description) = tasks.map (fun t => t.description) ++ ds := by
  induction ds generalizing w tasks with
  | nil => exact ⟨tasks, h, rfl, hids, by simp⟩
  | cons d ds ih =>
    have hlen : (d :: ds).length = ds.length + 1 := rfl
    rw [hlen] at hfit hsafe
    have hgen := specId_of_ids_range tasks tasks.length hids
    have hround : roundToDouble (specId tasks) = specId tasks := by
      apply roundToDouble_of_le
      rw [hgen]
      omega
    have hg : generateId w.maxArguments tasks = .ok (specId tasks) := by
      rw [generateId_of_fit _ _ (by omega), hround]
    have hok := addTask_of_ok d w tasks _ h hg
    obtain ⟨tasks', h1, h2, h3, h4⟩ := ih (addTask d w) _ hok.1 (by
      rw [List.map_append, hids, List.length_append, List.length_singleton, List.range_succ,
        List.map_append, hgen]
      rfl) (by rw [hok.2.2.2, List.length_append, List.length_singleton]; omega)
      (by rw [List.length_append, List.length_singleton]; omega)
    refine ⟨tasks', h1, ?_, h3, ?_⟩
    · rw [h2]; simp; omega
    · rw [h4]; simp

/-- Once the store holds more tasks than one call takes arguments, no `add` adds a task. -/
theorem addAll_of_excess (ds : List String) (w : World) (tasks : List Task)
    (h : w.file = some tasks) (hover : w.maxArguments < tasks.length) :
    (addAll ds w).file = some tasks := by
  induction ds generalizing w with
  | nil => exact h
  | cons d ds ih =>
    rw [addAll_cons, addTask_of_excess d w tasks h hover]
    exact ih _ h hover

/-- C4 (as the code behaves): `N` successive `add`s on an empty store, for `N` at most one
more than the number of arguments one call takes and at most `2^53`, leave a store of
exactly `N` tasks whose ids, in sequence order, are `1, 2, ..., N` (and whose descriptions
are the ones given, in order). -/
theorem addAll_ids_one_to_n (ds : List String) (w : World) (h : w.file = some [])
    (hfit : ds.length ≤ w.maxArguments + 1) (hsafe : ds.length ≤ 9007199254740992) :
    ∃ tasks, (addAll ds w).file = some tasks ∧
      tasks.length = ds.length ∧
      tasks.map (fun t => t.id) = (List.range ds.length).map (fun k : Nat => (k : Int) + 1) ∧
      tasks.map (fun t => t.description) = ds := by
  obtain ⟨tasks, h1, h2, h3, h4⟩ := addAll_from ds w [] h rfl
    (by simpa using hfit) (by simpa using hsafe)
  have hlen : tasks.length = ds.length := by simpa using h2
  exact ⟨tasks, h1, hlen, hlen ▸ h3, by simpa using h4⟩

theorem addAll_ids_one_to_n_witness :
    (sampleWorld []).file = some [] ∧
    ["a", "b", "c"].length ≤ (sampleWorld []).maxArguments + 1 ∧
    ["a", "b", "c"].length ≤ 9007199254740992 ∧
    (addAll ["a", "b", "c"] (sampleWorld [])).file
      = some [⟨1, "a", "todo", "2024-01-01T00:00:00.000Z", "2024-01-01T00:00:00.001Z"⟩,
          ⟨2, "b", "todo", "2024-01-01T00:00:00.001Z", "2024-01-01T00:00:00.001Z"⟩,
          ⟨3, "c", "todo", "2024-01-01T00:00:00.001Z", "2024-01-01T00:00:00.001Z"⟩] ∧
    ∃ tasks, (addAll ["a", "b", "c"] (sampleWorld [])).file = some tasks ∧
      tasks.length = ["a", "b", "c"].length ∧
      tasks.map (fun t => t.id)
        = (List.range ["a", "b", "c"].length).map (fun k : Nat => (k : Int) + 1) ∧
      tasks.map (fun t => t.description) = ["a", "b", "c"] :=
  ⟨rfl, by decide, by decide, by decide,
    addAll_ids_one_to_n ["a", "b", "c"] (sampleWorld []) rfl (by decide) (by decide)⟩

/-- C4 fails as stated: with a limit of 125000 arguments to a call, 125002 successive
`add`s on an empty store leave a store of 125001 tasks.  The last `add` finds 125001 tasks
in the store, `Math.max(...)` throws, and no task is added. -/
theorem addAll_stops_at_argument_limit :
    (sampleWorld []).file = some [] ∧
    ∃ tasks, (addAll (List.replicate 125002 "a") (sampleWorld [])).file = some tasks ∧
      tasks.length = 125001 ∧ (List.replicate 125002 "a").length = 125002 := by
  have hsplit : List.replicate 125002 "a" = List.replicate 125001 "a" ++ ["a"] :=
    List.replicate_succ' 125001 "a"
  obtain ⟨tasks, h1, h2, _, _⟩ := addAll_from (List.replicate 125001 "a") (sampleWorld []) [] rfl
    rfl (by rw [List.length_replicate]; decide) (by rw [List.length_replicate]; decide)
  have hlen : tasks.length = 125001 := by
    rw [h2, List.length_replicate]; rfl
  refine ⟨rfl, tasks, ?_, hlen, List.length_replicate _ _⟩
  rw [hsplit, addAll_append]
  apply addAll_of_excess _ _ _ h1
  rw [addAll_maxArguments, hlen]
  decide

/-! ## The two outcomes of an operation that looks a task up -/

theorem idIs_eq_false_iff (s : String) (t : Task) :
    idIs s t = false ↔ parseInt s ≠ some t.id := by
  simp [idIs]

theorem idIs_eq_true_iff (s : String) (t : Task) :
    idIs s t = true ↔ parseInt s = some t.id := by
  simp [idIs]

theorem find?_idIs_eq_none (s : String) (tasks : List Task) :
    tasks.find? (idIs s) = none ↔ ∀ t ∈ tasks, parseInt s ≠ some t.id := by
  rw [List.find?_eq_none]
  constructor
  · intro h t ht
    exact (idIs_eq_false_iff s t).1 (by simpa using h t ht)
  · intro h t ht
    simpa using (idIs_eq_false_iff s t).2 (h t ht)

theorem filter_length_eq_iff (s : String) (tasks : List Task) :
    (tasks.filter (fun t => !idIs s t)).length = tasks.length
      ↔ ∀ t ∈ tasks, parseInt s ≠ some t.id := by
  rw [List.filter_length_eq_length]
  constructor
  · intro h t ht
    exact (idIs_eq_false_iff s t).1 (by simpa using h t ht)
  · intro h t ht
    simpa using (idIs_eq_false_iff s t).2 (h t ht)

theorem deleteTask_absent (w : World) (tasks : List Task) (s : String) (h : w.file = some tasks)
    (habs : ∀ t ∈ tasks, parseInt s ≠ some t.id) :
    deleteTask s w = consoleError notFoundLine w := by
  unfold deleteTask
  simp only [readTasks, h]
  rw [if_pos ((filter_length_eq_iff s tasks).2 habs)]

theorem deleteTask_present (w : World) (tasks : List Task) (s : String) (h : w.file = some tasks)
    (hpres : ¬ ∀ t ∈ tasks, parseInt s ≠ some t.id) :
    deleteTask s w = consoleLog (COLORS.green ++ "Task deleted successfully" ++ COLORS.reset)
      (writeTasks (tasks.filter (fun t => !idIs s t)) w) := by
  unfold deleteTask
  simp only [readTasks, h]
  rw [if_neg (fun hlen => hpres ((filter_length_eq_iff s tasks).1 hlen))]

theorem updateTask_absent (w : World) (tasks : List Task) (s d : String)
    (h : w.file = some tasks) (habs : ∀ t ∈ tasks, parseInt s ≠ some t.id) :
    updateTask s d w = consoleError notFoundLine w := by
  unfold updateTask
  simp only [readTasks, h]
  rw [(find?_idIs_eq_none s tasks).2 habs]

theorem updateTask_present (w : World) (tasks : List Task) (s d : String)
    (h : w.file = some tasks) (hpres : ¬ ∀ t ∈ tasks, parseInt s ≠ some t.id) :
    updateTask s d w = consoleLog (COLORS.green ++ "Task updated successfully" ++ COLORS.reset)
      (writeTasks (modifyFirst (idIs s)
        (fun task => { task with description := d, updatedAt := w.clock 0 }) tasks)
        (getCurrentDate w).2) := by
  unfold updateTask
  simp only [readTasks, h]
  cases hf : tasks.find? (idIs s) with
  | none => exact absurd ((find?_idIs_eq_none s tasks).1 hf) hpres
  | some t => rfl

theorem markTask_absent (w : World) (tasks : List Task) (s status : String)
    (h : w.file = some tasks) (habs : ∀ t ∈ tasks, parseInt s ≠ some t.id) :
    markTask s status w = consoleError notFoundLine w := by
  unfold markTask
  simp only [readTasks, h]
  rw [(find?_idIs_eq_none s tasks).2 habs]

theorem markTask_present (w : World) (tasks : List Task) (s status : String)
    (h : w.file = some tasks) (hpres : ¬ ∀ t ∈ tasks, parseInt s ≠ some t.id) :
    markTask s status w
      = consoleLog (COLORS.green ++ "Task marked as " ++ formatStatus status ++ COLORS.reset)
        (writeTasks (modifyFirst (idIs s)
          (fun task => { task with status := status, updatedAt := w.clock 0 }) tasks)
          (getCurrentDate w).2) := by
  unfold markTask
  simp only [readTasks, h]
  cases hf : tasks.find? (idIs s) with
  | none => exact absurd ((find?_idIs_eq_none s tasks).1 hf) hpres
  | some t => rfl

theorem append_singleton_ne_self (l : List String) (x : String) : l ≠ l ++ [x] := by
  intro h
  have := congrArg List.length h
  simp at this

/-- C6: on a store `tasks`, each of `delete`, `update` and marking a status prints
`Error: Task not found` on the error stream if and only if no task of the store has the
given id; and in that case the file still holds `tasks` and nothing has been written. -/
theorem notFound_iff_no_such_id (w : World) (tasks : List Task) (s d status : String)
    (h : w.file = some tasks) :
    (((deleteTask s w).stderr = w.stderr ++ [notFoundLine]
        ↔ ∀ t ∈ tasks, parseInt s ≠ some t.id) ∧
      ((updateTask s d w).stderr = w.stderr ++ [notFoundLine]
        ↔ ∀ t ∈ tasks, parseInt s ≠ some t.id) ∧
      ((markTask s status w).stderr = w.stderr ++ [notFoundLine]
        ↔ ∀ t ∈ tasks, parseInt s ≠ some t.id)) ∧
    ((∀ t ∈ tasks, parseInt s ≠ some t.id) →
      ((deleteTask s w).file = some tasks ∧ (deleteTask s w).writes = w.writes) ∧
      ((updateTask s d w).file = some tasks ∧ (updateTask s d w).writes = w.writes) ∧
      ((markTask s status w).file = some tasks ∧ (markTask s status w).writes = w.writes)) := by
  refine ⟨⟨⟨?_, ?_⟩, ⟨?_, ?_⟩, ⟨?_, ?_⟩⟩, ?_⟩
  · intro herr
    by_contra hpres
    rw [deleteTask_present w tasks s h hpres] at herr
    exact append_singleton_ne_self _ _ herr
  · intro habs
    rw [deleteTask_absent w tasks s h habs]; rfl
  · intro herr
    by_contra hpres
    rw [updateTask_present w tasks s d h hpres] at herr
    exact append_singleton_ne_self _ _ herr
  · intro habs
    rw [updateTask_absent w tasks s d h habs]; rfl
  · intro herr
    by_contra hpres
    rw [markTask_present w tasks s status h hpres] at herr
    exact append_singleton_ne_self _ _ herr
  · intro habs
    rw [markTask_absent w tasks s status h habs]; rfl
  · intro habs
    rw [deleteTask_absent w tasks s h habs, updateTask_absent w tasks s d h habs,
      markTask_absent w tasks s status h habs]
    exact ⟨⟨h, rfl⟩, ⟨h, rfl⟩, ⟨h, rfl⟩⟩

theorem notFound_iff_no_such_id_witness :
    (sampleWorld [sampleTask 1 "a", sampleTask 2 "b"]).file
      = some [sampleTask 1 "a", sampleTask 2 "b"] ∧
    ((((deleteTask "7" (sampleWorld [sampleTask 1 "a", sampleTask 2 "b"])).stderr
          = (sampleWorld [sampleTask 1 "a", sampleTask 2 "b"]).stderr ++ [notFoundLine]
        ↔ ∀ t ∈ [sampleTask 1 "a", sampleTask 2 "b"], parseInt "7" ≠ some t.id) ∧
      ((updateTask "7" "x" (sampleWorld [sampleTask 1 "a", sampleTask 2 "b"])).stderr
          = (sampleWorld [sampleTask 1 "a", sampleTask 2 "b"]).stderr ++ [notFoundLine]
        ↔ ∀ t ∈ [sampleTask 1 "a", sampleTask 2 "b"], parseInt "7" ≠ some t.id) ∧
      ((markTask "7" "done" (sampleWorld [sampleTask 1 "a", sampleTask 2 "b"])).stderr
          = (sampleWorld [sampleTask 1 "a", sampleTask 2 "b"]).stderr ++ [notFoundLine]
        ↔ ∀ t ∈ [sampleTask 1 "a", sampleTask 2 "b"], parseInt "7" ≠ some t.id)) ∧
    ((∀ t ∈ [sampleTask 1 "a", sampleTask 2 "b"], parseInt "7" ≠ some t.id) →
      ((deleteTask "7" (sampleWorld [sampleTask 1 "a", sampleTask 2 "b"])).file
          = some [sampleTask 1 "a", sampleTask 2 "b"] ∧
        (deleteTask "7" (sampleWorld [sampleTask 1 "a", sampleTask 2 "b"])).writes
          = (sampleWorld [sampleTask 1 "a", sampleTask 2 "b"]).writes) ∧
      ((updateTask "7" "x" (sampleWorld [sampleTask 1 "a", sampleTask 2 "b"])).file
          = some [sampleTask 1 "a", sampleTask 2 "b"] ∧
        (updateTask "7" "x" (sampleWorld [sampleTask 1 "a", sampleTask 2 "b"])).writes
          = (sampleWorld [sampleTask 1 "a", sampleTask 2 "b"]).writes) ∧
      ((markTask "7" "done" (sampleWorld [sampleTask 1 "a", sampleTask 2 "b"])).file
          = some [sampleTask 1 "a", sampleTask 2 "b"] ∧
        (markTask "7" "done" (sampleWorld [sampleTask 1 "a", sampleTask 2 "b"])).writes
          = (sampleWorld [sampleTask 1 "a", sampleTask 2 "b"]).writes))) :=
  ⟨rfl, notFound_iff_no_such_id (sampleWorld [sampleTask 1 "a", sampleTask 2 "b"])
    [sampleTask 1 "a", sampleTask 2 "b"] "7" "x" "done" rfl⟩

/-! ## Deleting -/

theorem filter_ne_of_forall_ne (i : Int) (l : List Task) (h : ∀ t ∈ l, t.id ≠ i) :
    l.filter (fun t => decide (t.id ≠ i)) = l :=
  List.filter_eq_self.2 (fun t ht => decide_eq_true (h t ht))

/-- C5: on a store with pairwise distinct ids that has a task with id `i`, `delete i`
writes the store with that single task removed: the task sits between two segments
`before` and `after` of the old sequence, the new sequence is `before ++ after` (every
other task unchanged, in the same order), it is one shorter, and it has no task with
id `i`. -/
theorem deleteTask_removes_exactly_one (w : World) (tasks : List Task) (s : String) (i : Int)
    (h : w.file = some tasks) (hnd : (tasks.map (fun t => t.id)).Nodup)
    (hs : parseInt s = some i) (hi : ∃ t ∈ tasks, t.id = i) :
    ∃ before target after,
      tasks = before ++ target :: after ∧ target.id = i ∧
      (deleteTask s w).file = some (before ++ after) ∧
      (deleteTask s w).writes = w.writes ++ [before ++ after] ∧
      (before ++ after).length + 1 = tasks.length ∧
      ∀ t ∈ before ++ after, t.id ≠ i := by
  obtain ⟨target, hmem, hid⟩ := hi
  obtain ⟨before, after, rfl⟩ := List.append_of_mem hmem
  have hnd' := hnd
  rw [List.map_append, List.map_cons, List.nodup_append, List.nodup_cons] at hnd'
  obtain ⟨_, ⟨hafter, _⟩, hdisj⟩ := hnd'
  have hb : ∀ t ∈ before, t.id ≠ i := by
    intro t ht heq
    have h1 : t.id ∈ before.map (fun t => t.id) := List.mem_map_of_mem (fun t => t.id) ht
    exact hdisj h1 (by rw [heq, ← hid]; exact List.mem_cons_self _ _)
  have ha : ∀ t ∈ after, t.id ≠ i := by
    intro t ht heq
    have h1 : t.id ∈ after.map (fun t => t.id) := List.mem_map_of_mem (fun t => t.id) ht
    exact hafter (by rw [hid, ← heq]; exact h1)
  have hfilter : (before ++ target :: after).filter (fun t => !idIs s t) = before ++ after := by
    rw [deleteTask_filter_of_parse s i hs, List.filter_append, List.filter_cons,
      filter_ne_of_forall_ne i before hb, filter_ne_of_forall_ne i after ha]
    simp [hid]
  have hpres : ¬ ∀ t ∈ before ++ target :: after, parseInt s ≠ some t.id := by
    intro habs
    exact habs target hmem (by rw [hs, hid])
  refine ⟨before, target, after, rfl, hid, ?_, ?_, by simp; omega, ?_⟩
  · rw [deleteTask_present w _ s h hpres, hfilter]; rfl
  · rw [deleteTask_present w _ s h hpres, hfilter]; rfl
  · intro t ht
    rcases List.mem_append.1 ht with h1 | h1
    · exact hb t h1
    · exact ha t h1

theorem deleteTask_removes_exactly_one_witness :
    (sampleWorld [sampleTask 1 "a", sampleTask 2 "b", sampleTask 3 "c"]).file
      = some [sampleTask 1 "a", sampleTask 2 "b", sampleTask 3 "c"] ∧
    ([sampleTask 1 "a", sampleTask 2 "b", sampleTask 3 "c"].map (fun t => t.id)).Nodup ∧
    parseInt "2" = some 2 ∧
    (∃ t ∈ [sampleTask 1 "a", sampleTask 2 "b", sampleTask 3 "c"], t.id = 2) ∧
    ∃ before target after,
      [sampleTask 1 "a", sampleTask 2 "b", sampleTask 3 "c"] = before ++ target :: after ∧
      target.id = 2 ∧
      (deleteTask "2" (sampleWorld [sampleTask 1 "a", sampleTask 2 "b", sampleTask 3 "c"])).file
        = some (before ++ after) ∧
      (deleteTask "2" (sampleWorld [sampleTask 1 "a", sampleTask 2 "b", sampleTask 3 "c"])).writes
        = (sampleWorld [sampleTask 1 "a", sampleTask 2 "b", sampleTask 3 "c"]).writes
          ++ [before ++ after] ∧
      (before ++ after).length + 1
        = [sampleTask 1 "a", sampleTask 2 "b", sampleTask 3 "c"].length ∧
      ∀ t ∈ before ++ after, t.id ≠ 2 :=
  ⟨rfl, by decide, by decide, by decide,
    deleteTask_removes_exactly_one _ _ "2" 2 rfl (by decide) (by decide) (by decide)⟩

/-! ## How `main` dispatches -/

theorem truthy_some (s : String) (hs : s ≠ "") : truthy (some s) = some s := by
  simp [truthy, hs]

theorem ne_empty_of_parseInt (s : String) (i : Int) (hs : parseInt s = some i) : s ≠ "" := by
  rintro rfl
  have hnan : parseInt "" = none := by decide
  rw [hnan] at hs
  cases hs

theorem intercalate_go_eq_empty (sep acc : String) (l : List String)
    (h : String.intercalate.go acc sep l = "") : acc = "" := by
  induction l generalizing acc with
  | nil => simpa [String.intercalate.go] using h
  | cons x xs ih =>
    have h1 : acc ++ sep ++ x = "" := ih _ (by simpa [String.intercalate.go] using h)
    have h2 := congrArg String.data h1
    apply String.ext
    simp only [String.data_append, List.append_eq_nil] at h2
    simpa using h2.1.1

theorem intercalate_cons_ne_empty (sep s : String) (rest : List String) (hs : s ≠ "") :
    sep.intercalate (s :: rest) ≠ "" := by
  intro h
  cases rest with
  | nil => exact hs (by simpa [String.intercalate, String.intercalate.go] using h)
  | cons r rs =>
    have h1 : s ++ sep ++ r = "" :=
      intercalate_go_eq_empty sep _ rs (by simpa [String.intercalate] using h)
    have h2 := congrArg String.data h1
    apply hs
    apply String.ext
    simp only [String.data_append, List.append_eq_nil] at h2
    simpa using h2.1.1

theorem main_update (s : String) (rest : List String) (w : World) (hs : s ≠ "") :
    main ("update" :: s :: rest) w
      = updateTask s (" ".intercalate (s :: rest)) (initializeFile w) := by
  have hd : " ".intercalate (s :: rest) ≠ "" := intercalate_cons_ne_empty " " s rest hs
  unfold main
  simp [truthy_some s hs, hd]

theorem main_mark_in_progress (s : String) (rest : List String) (w : World) (hs : s ≠ "") :
    main ("mark-in-progress" :: s :: rest) w = markTask s "in-progress" (initializeFile w) := by
  unfold main
  simp [truthy_some s hs]

theorem main_mark_done (s : String) (rest : List String) (w : World) (hs : s ≠ "") :
    main ("mark-done" :: s :: rest) w = markTask s "done" (initializeFile w) := by
  unfold main
  simp [truthy_some s hs]

/-! ## The `update` command -/

/-- C7: on the store holding one task with id 1, the command line `update 1 b` persists
the description `1 b`, not `b`: `main` hands `args.slice(1).join(" ")`, which starts with
the id argument, to `updateTask` as the new description. -/
theorem update_command_description_includes_id :
    (main ["update", "1", "b"] (sampleWorld [sampleTask 1 "a"])).file
      = some [⟨1, "1 b", "todo", "2023-12-31T00:00:00.000Z", "2024-01-01T00:00:00.000Z"⟩] ∧
    (main ["update", "1", "b"] (sampleWorld [sampleTask 1 "a"])).stderr = [] := by
  refine ⟨by decide, by decide⟩

/-- C8: on the store holding one task with id 1 and description `a`, the command line
`update 1`, which has no description, reports no error and overwrites the description with
`1`: the description `main` tests for emptiness is `args.slice(1).join(" ")`, which contains
the id argument. -/
theorem update_command_without_description_overwrites :
    (main ["update", "1"] (sampleWorld [sampleTask 1 "a"])).file
      = some [⟨1, "1", "todo", "2023-12-31T00:00:00.000Z", "2024-01-01T00:00:00.000Z"⟩] ∧
    (main ["update", "1"] (sampleWorld [sampleTask 1 "a"])).stderr = [] ∧
    (main ["update", "1"] (sampleWorld [sampleTask 1 "a"])).stdout
      = [COLORS.green ++ "Task updated successfully" ++ COLORS.reset] ∧
    (main ["update", "1", ""] (sampleWorld [sampleTask 1 "a"])).file
      = some [⟨1, "1 ", "todo", "2023-12-31T00:00:00.000Z", "2024-01-01T00:00:00.000Z"⟩] ∧
    (main ["update", "1", ""] (sampleWorld [sampleTask 1 "a"])).stderr = [] := by
  refine ⟨by decide, by decide, by decide, by decide, by decide⟩

/-! ## Marking a status -/

theorem find?_modifyFirst (p q : Task → Bool) (f : Task → Task) (l : List Task)
    (hpq : ∀ t, p t = q t) (hf : ∀ t, q (f t) = q t) :
    (modifyFirst p f l).find? q = (l.find? p).map f := by
  induction l with
  | nil => rfl
  | cons t ts ih =>
    unfold modifyFirst
    by_cases hp : p t = true
    · have hq : q (f t) = true := by rw [hf, ← hpq]; exact hp
      simp [hp, hq, List.find?_cons]
    · have hp' : p t = false := by simpa using hp
      have hq : q t = false := by rw [← hpq]; exact hp'
      simp [hp', hq, List.find?_cons, ih]

theorem mem_modifyFirst_of_nodup (p : Task → Bool) (f : Task → Task) (i : Int)
    (hp : ∀ t, p t = true ↔ t.id = i) (l : List Task)
    (hnd : (l.map (fun t => t.id)).Nodup) (u : Task) (hu : u ∈ modifyFirst p f l)
    (hid : u.id = i) : ∃ t ∈ l, u = f t := by
  induction l with
  | nil => simp [modifyFirst] at hu
  | cons t ts ih =>
    rw [List.map_cons, List.nodup_cons] at hnd
    unfold modifyFirst at hu
    by_cases hpt : p t = true
    · rw [if_pos hpt] at hu
      rcases List.mem_cons.1 hu with h | h
      · exact ⟨t, List.mem_cons_self _ _, h⟩
      · exfalso
        apply hnd.1
        have : t.id = u.id := by rw [hid]; exact (hp t).1 hpt
        rw [this]
        exact List.mem_map_of_mem (fun t => t.id) h
    · rw [if_neg hpt] at hu
      rcases List.mem_cons.1 hu with h | h
      · exfalso
        apply hpt
        rw [← h]
        exact (hp u).2 hid
      · obtain ⟨t', ht', hut'⟩ := ih hnd.2 h
        exact ⟨t', List.mem_cons_of_mem _ ht', hut'⟩

theorem idIs_iff_of_parse (s : String) (i : Int) (hs : parseInt s = some i) (t : Task) :
    idIs s t = true ↔ t.id = i := by
  rw [idIs_eq_true_iff, hs]
  constructor
  · intro h; exact (Option.some.inj h).symm
  · intro h; rw [h]

theorem markTask_sets_status (w : World) (tasks : List Task) (s status : String) (i : Int)
    (h : w.file = some tasks) (hs : parseInt s = some i) (hi : ∃ t ∈ tasks, t.id = i) :
    ∃ tasks' target,
      (markTask s status w).file = some tasks' ∧
      (markTask s status w).writes = w.writes ++ [tasks'] ∧
      tasks'.find? (fun t => decide (t.id = i)) = some target ∧
      target.status = status ∧ target.updatedAt = w.clock 0 ∧
      ((tasks.map (fun t => t.id)).Nodup →
        ∀ t ∈ tasks', t.id = i → t.status = status ∧ t.updatedAt = w.clock 0) := by
  obtain ⟨t0, ht0, hid0⟩ := hi
  have hpres : ¬ ∀ t ∈ tasks, parseInt s ≠ some t.id := fun habs =>
    habs t0 ht0 (by rw [hs, hid0])
  have hpq : ∀ t, idIs s t = (fun t : Task => decide (t.id = i)) t := by
    intro t
    by_cases ht : t.id = i
    · simp [ht, (idIs_iff_of_parse s i hs t).2 ht]
    · have : idIs s t = false := by
        simpa using fun hh => ht ((idIs_iff_of_parse s i hs t).1 hh)
      simp [ht, this]
  have hfind : ∃ t1, tasks.find? (idIs s) = some t1 := by
    cases hf : tasks.find? (idIs s) with
    | none => exact absurd ((find?_idIs_eq_none s tasks).1 hf) hpres
    | some t1 => exact ⟨t1, rfl⟩
  obtain ⟨t1, ht1⟩ := hfind
  refine ⟨modifyFirst (idIs s)
    (fun task => { task with status := status, updatedAt := w.clock 0 }) tasks,
    { t1 with status := status, updatedAt := w.clock 0 }, ?_, ?_, ?_, rfl, rfl, ?_⟩
  · rw [markTask_present w tasks s status h hpres]; rfl
  · rw [markTask_present w tasks s status h hpres]; rfl
  · rw [find?_modifyFirst (idIs s) (fun t => decide (t.id = i))
      (fun task => { task with status := status, updatedAt := w.clock 0 }) tasks hpq
      (fun _ => rfl), ht1]
    rfl
  · intro hnd t ht hid
    obtain ⟨t', _, rfl⟩ := mem_modifyFirst_of_nodup (idIs s) _ i (idIs_iff_of_parse s i hs)
      tasks hnd t ht hid
    exact ⟨rfl, rfl⟩

/-- C9: on a store `tasks` that has a task with id `i`, the command lines
`mark-in-progress i` and `mark-done i` write a store in which the task with id `i` (the
one a lookup by id finds; with pairwise distinct ids, every task with id `i`) has status
`in-progress`, respectively `done`, whatever it was before, and has as `updatedAt` the
clock reading taken by the operation. -/
theorem mark_commands_set_status (w : World) (tasks : List Task) (s : String) (i : Int)
    (rest : List String)
    (h : w.file = some tasks) (hs : parseInt s = some i) (hi : ∃ t ∈ tasks, t.id = i) :
    (∃ tasks' target,
      (main ("mark-in-progress" :: s :: rest) w).file = some tasks' ∧
      (main ("mark-in-progress" :: s :: rest) w).writes = w.writes ++ [tasks'] ∧
      tasks'.find? (fun t => decide (t.id = i)) = some target ∧
      target.status = "in-progress" ∧ target.updatedAt = w.clock 0 ∧
      ((tasks.map (fun t => t.id)).Nodup →
        ∀ t ∈ tasks', t.id = i → t.status = "in-progress" ∧ t.updatedAt = w.clock 0)) ∧
    (∃ tasks' target,
      (main ("mark-done" :: s :: rest) w).file = some tasks' ∧
      (main ("mark-done" :: s :: rest) w).writes = w.writes ++ [tasks'] ∧
      tasks'.find? (fun t => decide (t.id = i)) = some target ∧
      target.status = "done" ∧ target.updatedAt = w.clock 0 ∧
      ((tasks.map (fun t => t.id)).Nodup →
        ∀ t ∈ tasks', t.id = i → t.status = "done" ∧ t.updatedAt = w.clock 0)) := by
  have hne := ne_empty_of_parseInt s i hs
  rw [main_mark_in_progress s rest w hne, main_mark_done s rest w hne,
    initializeFile_of_file w tasks h]
  exact ⟨markTask_sets_status w tasks s "in-progress" i h hs hi,
    markTask_sets_status w tasks s "done" i h hs hi⟩

theorem mark_commands_set_status_witness :
    (sampleWorld [sampleTask 1 "a", sampleTask 2 "b"]).file
      = some [sampleTask 1 "a", sampleTask 2 "b"] ∧
    parseInt "2" = some 2 ∧
    (∃ t ∈ [sampleTask 1 "a", sampleTask 2 "b"], t.id = 2) ∧
    ((∃ tasks' target,
      (main ("mark-in-progress" :: "2" :: [])
          (sampleWorld [sampleTask 1 "a", sampleTask 2 "b"])).file = some tasks' ∧
      (main ("mark-in-progress" :: "2" :: [])
          (sampleWorld [sampleTask 1 "a", sampleTask 2 "b"])).writes
        = (sampleWorld [sampleTask 1 "a", sampleTask 2 "b"]).writes ++ [tasks'] ∧
      tasks'.find? (fun t => decide (t.id = 2)) = some target ∧
      target.status = "in-progress" ∧
      target.updatedAt = (sampleWorld [sampleTask 1 "a", sampleTask 2 "b"]).clock 0 ∧
      (([sampleTask 1 "a", sampleTask 2 "b"].map (fun t => t.id)).Nodup →
        ∀ t ∈ tasks', t.id = 2 → t.status = "in-progress" ∧
          t.updatedAt = (sampleWorld [sampleTask 1 "a", sampleTask 2 "b"]).clock 0)) ∧
    (∃ tasks' target,
      (main ("mark-done" :: "2" :: [])
          (sampleWorld [sampleTask 1 "a", sampleTask 2 "b"])).file = some tasks' ∧
      (main ("mark-done" :: "2" :: [])
          (sampleWorld [sampleTask 1 "a", sampleTask 2 "b"])).writes
        = (sampleWorld [sampleTask 1 "a", sampleTask 2 "b"]).writes ++ [tasks'] ∧
      tasks'.find? (fun t => decide (t.id = 2)) = some target ∧
      target.status = "done" ∧
      target.updatedAt = (sampleWorld [sampleTask 1 "a", sampleTask 2 "b"]).clock 0 ∧
      (([sampleTask 1 "a", sampleTask 2 "b"].map (fun t => t.id)).Nodup →
        ∀ t ∈ tasks', t.id = 2 → t.status = "done" ∧
          t.updatedAt = (sampleWorld [sampleTask 1 "a", sampleTask 2 "b"]).clock 0))) :=
  ⟨rfl, by decide, by decide,
    mark_commands_set_status _ _ "2" 2 [] rfl (by decide) (by decide)⟩

/-! ## What `update` and marking leave alone -/

theorem modifyFirst_length (p : Task → Bool) (f : Task → Task) (l : List Task) :
    (modifyFirst p f l).length = l.length := by
  induction l with
  | nil => rfl
  | cons t ts ih =>
    unfold modifyFirst
    split <;> simp [ih]

theorem modifyFirst_getElem? (p : Task → Bool) (f : Task → Task) (l : List Task) (k : Nat)
    (t : Task) (ht : l[k]? = some t) :
    (modifyFirst p f l)[k]? = some t ∨ (p t = true ∧ (modifyFirst p f l)[k]? = some (f t)) := by
  induction l generalizing k with
  | nil => simp at ht
  | cons u us ih =>
    unfold modifyFirst
    by_cases hp : p u = true
    · rw [if_pos hp]
      cases k with
      | zero =>
        have hut : u = t := by simpa using ht
        subst hut
        exact Or.inr ⟨hp, by simp⟩
      | succ k => exact Or.inl (by simpa using ht)
    · rw [if_neg hp]
      cases k with
      | zero => exact Or.inl (by simpa using ht)
      | succ k =>
        have ht' : us[k]? = some t := by simpa using ht
        simpa using ih k ht'

/-- C10: `update` and marking a status keep the length and the order of the sequence;
at every position the task keeps its `id` and its `createdAt`; a task whose id is not the
given one is left entirely unchanged; `update` also keeps every `status` and marking also
keeps every `description`.  (This holds whether or not the ids are pairwise distinct and
whether or not the id is found.) -/
theorem update_and_mark_touch_only_target (w : World) (tasks : List Task) (s d status : String)
    (h : w.file = some tasks) :
    (∃ tasks' : List Task, (updateTask s d w).file = some tasks' ∧ tasks'.length = tasks.length ∧
      ∀ (k : Nat) (t : Task), tasks[k]? = some t → ∃ t' : Task, tasks'[k]? = some t' ∧
        t'.id = t.id ∧ t'.createdAt = t.createdAt ∧ t'.status = t.status ∧
        (parseInt s ≠ some t.id → t' = t)) ∧
    (∃ tasks' : List Task, (markTask s status w).file = some tasks' ∧ tasks'.length = tasks.length ∧
      ∀ (k : Nat) (t : Task), tasks[k]? = some t → ∃ t' : Task, tasks'[k]? = some t' ∧
        t'.id = t.id ∧ t'.createdAt = t.createdAt ∧ t'.description = t.description ∧
        (parseInt s ≠ some t.id → t' = t)) := by
  constructor
  · refine ⟨_, updateTask_file s d w, ?_, ?_⟩
    · rw [modifyFirst_length, tasksOf_of_file w tasks h]
    · intro k t ht
      rw [tasksOf_of_file w tasks h]
      rcases modifyFirst_getElem? (idIs s)
        (fun task => { task with description := d, updatedAt := w.clock 0 }) tasks k t ht
        with h1 | ⟨hp, h1⟩
      · exact ⟨t, h1, rfl, rfl, rfl, fun _ => rfl⟩
      · exact ⟨_, h1, rfl, rfl, rfl, fun hne => absurd ((idIs_eq_true_iff s t).1 hp) hne⟩
  · refine ⟨_, markTask_file s status w, ?_, ?_⟩
    · rw [modifyFirst_length, tasksOf_of_file w tasks h]
    · intro k t ht
      rw [tasksOf_of_file w tasks h]
      rcases modifyFirst_getElem? (idIs s)
        (fun task => { task with status := status, updatedAt := w.clock 0 }) tasks k t ht
        with h1 | ⟨hp, h1⟩
      · exact ⟨t, h1, rfl, rfl, rfl, fun _ => rfl⟩
      · exact ⟨_, h1, rfl, rfl, rfl, fun hne => absurd ((idIs_eq_true_iff s t).1 hp) hne⟩

theorem update_and_mark_touch_only_target_witness :
    (sampleWorld [sampleTask 1 "a", sampleTask 2 "b"]).file
      = some [sampleTask 1 "a", sampleTask 2 "b"] ∧
    ((∃ tasks' : List Task, (updateTask "2" "x" (sampleWorld [sampleTask 1 "a", sampleTask 2 "b"])).file
        = some tasks' ∧
      tasks'.length = [sampleTask 1 "a", sampleTask 2 "b"].length ∧
      ∀ (k : Nat) (t : Task), [sampleTask 1 "a", sampleTask 2 "b"][k]? = some t → ∃ t' : Task, tasks'[k]? = some t' ∧
        t'.id = t.id ∧ t'.createdAt = t.createdAt ∧ t'.status = t.status ∧
        (parseInt "2" ≠ some t.id → t' = t)) ∧
    (∃ tasks' : List Task, (markTask "2" "done" (sampleWorld [sampleTask 1 "a", sampleTask 2 "b"])).file
        = some tasks' ∧
      tasks'.length = [sampleTask 1 "a", sampleTask 2 "b"].length ∧
      ∀ (k : Nat) (t : Task), [sampleTask 1 "a", sampleTask 2 "b"][k]? = some t → ∃ t' : Task, tasks'[k]? = some t' ∧
        t'.id = t.id ∧ t'.createdAt = t.createdAt ∧ t'.description = t.description ∧
        (parseInt "2" ≠ some t.id → t' = t))) :=
  ⟨rfl, update_and_mark_touch_only_target (sampleWorld [sampleTask 1 "a", sampleTask 2 "b"])
    [sampleTask 1 "a", sampleTask 2 "b"] "2" "x" "done" rfl⟩

/-! ## Listing -/

theorem foldl_consoleLog_stdout (l : List Task) (w : World) :
    (l.foldl (fun w task => consoleLog (taskLine task) w) w).stdout
      = w.stdout ++ l.map taskLine := by
  induction l generalizing w with
  | nil => simp
  | cons t ts ih => rw [List.foldl_cons, ih]; simp [consoleLog]

theorem foldl_consoleLog_stderr (l : List Task) (w : World) :
    (l.foldl (fun w task => consoleLog (taskLine task) w) w).stderr = w.stderr := by
  induction l generalizing w with
  | nil => rfl
  | cons t ts ih => rw [List.foldl_cons, ih]; rfl

theorem listed_none (tasks : List Task) : listed none tasks = tasks := rfl

theorem listed_some (s : String) (hs : s ≠ "") (tasks : List Task) :
    listed (some s) tasks = tasks.filter (fun t => decide (t.status = s)) := by
  simp [listed, truthy, hs]

/-- C11 (as the code behaves): `list` with no filter, and `list` with the empty string as
filter, select the whole sequence; with a non-empty status filter `s` it selects exactly the
tasks whose status is `s`, as a subsequence of the store in the same order; the selected
tasks are printed one line each after a header, and when nothing is selected
`No tasks found` is printed on the output stream and nothing on the error stream. -/
theorem listTasks_selects_by_status (w : World) (tasks : List Task) (s : String)
    (h : w.file = some tasks) (hs : s ≠ "") :
    listed none tasks = tasks ∧
    listed (some "") tasks = tasks ∧
    listed (some s) tasks = tasks.filter (fun t => decide (t.status = s)) ∧
    (∀ t, t ∈ listed (some s) tasks ↔ t ∈ tasks ∧ t.status = s) ∧
    (listed (some s) tasks).Sublist tasks ∧
    (∀ status, listed status tasks ≠ [] →
      (listTasks status w).stdout
        = w.stdout ++ tasksHeaderLine :: (listed status tasks).map taskLine ∧
      (listTasks status w).stderr = w.stderr) ∧
    (∀ status, listed status tasks = [] →
      (listTasks status w).stdout = w.stdout ++ [noTasksLine] ∧
      (listTasks status w).stderr = w.stderr) ∧
    (∀ status, (listTasks status w).file = some tasks ∧ (listTasks status w).writes = w.writes) := by
  have hl := listed_some s hs tasks
  refine ⟨rfl, rfl, hl, ?_, ?_, ?_, ?_, ?_⟩
  · intro t
    rw [hl, List.mem_filter]
    simp
  · rw [hl]; exact List.filter_sublist tasks
  · intro status hne
    have hlen : ¬ (listed status tasks).length = 0 := by
      intro h0; exact hne (List.length_eq_zero.1 h0)
    unfold listTasks
    simp only [readTasks, h]
    rw [if_neg hlen, foldl_consoleLog_stdout, foldl_consoleLog_stderr]
    constructor
    · simp [consoleLog, tasksHeaderLine]
    · rfl
  · intro status hnil
    unfold listTasks
    simp only [readTasks, h]
    rw [if_pos (by rw [hnil]; rfl)]
    exact ⟨rfl, rfl⟩
  · intro status
    refine ⟨by rw [listTasks_file, tasksOf_of_file w tasks h], ?_⟩
    unfold listTasks
    simp only [readTasks, h]
    split
    · rfl
    · have : ∀ (l : List Task) (w : World),
          (l.foldl (fun w task => consoleLog (taskLine task) w) w).writes = w.writes := by
        intro l
        induction l with
        | nil => intro w; rfl
        | cons t ts ih => intro w; rw [List.foldl_cons, ih]; rfl
      rw [this]; rfl

theorem listTasks_selects_by_status_witness :
    (sampleWorld [sampleTask 1 "a", ⟨2, "b", "done", "x", "y"⟩, sampleTask 3 "c"]).file
      = some [sampleTask 1 "a", ⟨2, "b", "done", "x", "y"⟩, sampleTask 3 "c"] ∧
    "todo" ≠ "" ∧
    listed (some "todo") [sampleTask 1 "a", ⟨2, "b", "done", "x", "y"⟩, sampleTask 3 "c"]
      = [sampleTask 1 "a", sampleTask 3 "c"] ∧
    listed (some "") [sampleTask 1 "a", ⟨2, "b", "done", "x", "y"⟩, sampleTask 3 "c"]
      = [sampleTask 1 "a", ⟨2, "b", "done", "x", "y"⟩, sampleTask 3 "c"] ∧
    listed (some "todo") [sampleTask 1 "a", ⟨2, "b", "done", "x", "y"⟩, sampleTask 3 "c"]
      = [sampleTask 1 "a", ⟨2, "b", "done", "x", "y"⟩, sampleTask 3 "c"].filter
          (fun t => decide (t.status = "todo")) :=
  ⟨rfl, by decide, by decide,
    (listTasks_selects_by_status
      (sampleWorld [sampleTask 1 "a", ⟨2, "b", "done", "x", "y"⟩, sampleTask 3 "c"])
      [sampleTask 1 "a", ⟨2, "b", "done", "x", "y"⟩, sampleTask 3 "c"] "todo" rfl
      (by decide)).2.1,
    (listTasks_selects_by_status
      (sampleWorld [sampleTask 1 "a", ⟨2, "b", "done", "x", "y"⟩, sampleTask 3 "c"])
      [sampleTask 1 "a", ⟨2, "b", "done", "x", "y"⟩, sampleTask 3 "c"] "todo" rfl
      (by decide)).2.2.1⟩

/-- C11 fails as stated: with the empty string as status filter, `list` selects every task
of the store, not the tasks whose status is the empty string.  In the store of one task
with status `todo`, no task has status `""`, yet that task is selected and printed. -/
theorem listTasks_empty_filter_selects_all :
    [sampleTask 1 "a"].filter (fun t => decide (t.status = "")) = [] ∧
    listed (some "") [sampleTask 1 "a"] = [sampleTask 1 "a"] ∧
    (listTasks (some "") (sampleWorld [sampleTask 1 "a"])).stdout
      = [tasksHeaderLine, taskLine (sampleTask 1 "a")] ∧
    (main ["list", ""] (sampleWorld [sampleTask 1 "a"])).stdout
      = [tasksHeaderLine, taskLine (sampleTask 1 "a")] := by
  refine ⟨by decide, by decide, rfl, rfl⟩

/-! ## The `add` command -/

theorem main_add_empty (rest : List String) (w : World) (hd : " ".intercalate rest = "") :
    main ("add" :: rest) w = consoleError descriptionRequiredLine (initializeFile w) := by
  unfold main
  simp [hd, descriptionRequiredLine]

theorem main_add (rest : List String) (w : World) (hd : " ".intercalate rest ≠ "") :
    main ("add" :: rest) w = catchError (addTask (" ".intercalate rest) (initializeFile w)) := by
  unfold main
  simp [hd]

/-- The `add` command on a store of more tasks than one call takes arguments: the
`RangeError` of `Math.max(...)` is caught and reported, and nothing else changes. -/
theorem main_add_of_excess (rest : List String) (w : World) (tasks : List Task)
    (hd : " ".intercalate rest ≠ "") (h : w.file = some tasks)
    (hover : w.maxArguments < tasks.length) :
    main ("add" :: rest) w
      = consoleError (COLORS.red ++ "Error: " ++ rangeErrorMessage ++ COLORS.reset)
          { w with thrown := none } := by
  rw [main_add rest w hd, initializeFile_of_file w tasks h, addTask_of_excess _ w tasks h hover]
  rfl

/-- C12: on a store `tasks`, the command lines `add` and `add ""` print
`Error: Description is required` on the error stream and change nothing else (the file
still holds `tasks`, nothing is written); and whatever follows `add` on the command line,
the file afterwards holds either `tasks` or `tasks` followed by one new task whose
description is not empty. -/
theorem add_command_requires_description (w : World) (tasks : List Task)
    (h : w.file = some tasks) :
    main ["add"] w = consoleError descriptionRequiredLine w ∧
    main ["add", ""] w = consoleError descriptionRequiredLine w ∧
    (consoleError descriptionRequiredLine w).file = some tasks ∧
    (consoleError descriptionRequiredLine w).writes = w.writes ∧
    (consoleError descriptionRequiredLine w).stderr = w.stderr ++ [descriptionRequiredLine] ∧
    ∀ rest : List String,
      (main ("add" :: rest) w).file = some tasks ∨
      ∃ newTask : Task, (main ("add" :: rest) w).file = some (tasks ++ [newTask]) ∧
        newTask.description ≠ "" ∧ newTask.description = " ".intercalate rest := by
  have hi := initializeFile_of_file w tasks h
  refine ⟨?_, ?_, h, rfl, rfl, ?_⟩
  · rw [main_add_empty [] w (by decide), hi]
  · rw [main_add_empty [""] w (by decide), hi]
  · intro rest
    by_cases hd : " ".intercalate rest = ""
    · left
      rw [main_add_empty rest w hd, hi]
      exact h
    · rw [main_add rest w hd, hi, catchError_file]
      rcases addTask_file_cases (" ".intercalate rest) w with hf | hf
      · left
        rw [hf, tasksOf_of_file w tasks h]
      · right
        rw [hf, tasksOf_of_file w tasks h]
        exact ⟨_, rfl, hd, rfl⟩

theorem add_command_requires_description_witness :
    (sampleWorld [sampleTask 1 "a"]).file = some [sampleTask 1 "a"] ∧
    main ["add"] (sampleWorld [sampleTask 1 "a"])
      = consoleError descriptionRequiredLine (sampleWorld [sampleTask 1 "a"]) ∧
    (main ["add"] (sampleWorld [sampleTask 1 "a"])).file = some [sampleTask 1 "a"] ∧
    (main ["add"] (sampleWorld [sampleTask 1 "a"])).stderr = [descriptionRequiredLine] :=
  ⟨rfl,
    (add_command_requires_description (sampleWorld [sampleTask 1 "a"]) [sampleTask 1 "a"] rfl).1,
    by decide, by decide⟩

/-! ## Timestamps of a new task -/

/-- C13 (as the code behaves): `add` reads the clock twice; the new task's `createdAt` is
the first reading and its `updatedAt` is the second, so the two are equal whenever the clock
shows the same value at both readings. -/
theorem addTask_timestamps (d : String) (w : World) (tasks : List Task)
    (h : w.file = some tasks) (hfit : tasks.length ≤ w.maxArguments) :
    ∃ newTask : Task, (addTask d w).file = some (tasks ++ [newTask]) ∧
      newTask.createdAt = w.clock 0 ∧ newTask.updatedAt = w.clock 1 ∧
      (w.clock 0 = w.clock 1 → newTask.createdAt = newTask.updatedAt) :=
  ⟨_, (addTask_of_ok d w tasks _ h (generateId_of_fit _ _ hfit)).1, rfl, rfl, fun hc => hc⟩

theorem addTask_timestamps_witness :
    (sampleWorld [sampleTask 1 "a"]).file = some [sampleTask 1 "a"] ∧
    [sampleTask 1 "a"].length ≤ (sampleWorld [sampleTask 1 "a"]).maxArguments ∧
    ∃ newTask : Task,
      (addTask "b" (sampleWorld [sampleTask 1 "a"])).file
        = some ([sampleTask 1 "a"] ++ [newTask]) ∧
      newTask.createdAt = (sampleWorld [sampleTask 1 "a"]).clock 0 ∧
      newTask.updatedAt = (sampleWorld [sampleTask 1 "a"]).clock 1 ∧
      ((sampleWorld [sampleTask 1 "a"]).clock 0 = (sampleWorld [sampleTask 1 "a"]).clock 1 →
        newTask.createdAt = newTask.updatedAt) :=
  ⟨rfl, by decide,
    addTask_timestamps "b" (sampleWorld [sampleTask 1 "a"]) [sampleTask 1 "a"] rfl (by decide)⟩

/-- C13 fails as stated: when the clock advances between the two readings that `add`
takes, the new task's `createdAt` and `updatedAt` differ. -/
theorem addTask_timestamps_can_differ :
    (addTask "a" (sampleWorld [])).file
      = some [⟨1, "a", "todo", "2024-01-01T00:00:00.000Z", "2024-01-01T00:00:00.001Z"⟩] ∧
    ("2024-01-01T00:00:00.000Z" : String) ≠ "2024-01-01T00:00:00.001Z" := by
  refine ⟨by decide, by decide⟩

/-! ## Properties kept by every command -/

theorem main_cases (P : World → Prop) (args : List String) (w : World)
    (herr : ∀ line, P (consoleError line (initializeFile w)))
    (hadd : ∀ d, P (catchError (addTask d (initializeFile w))))
    (hupd : ∀ s d, P (updateTask s d (initializeFile w)))
    (hdel : ∀ s, P (deleteTask s (initializeFile w)))
    (hprog : ∀ s, P (markTask s "in-progress" (initializeFile w)))
    (hdone : ∀ s, P (markTask s "done" (initializeFile w)))
    (hlist : ∀ status, P (listTasks status (initializeFile w))) :
    P (main args w) := by
  unfold main
  simp only
  split
  · split
    · exact herr _
    · exact hadd _
  · split
    · split
      · exact herr _
      · split
        · exact herr _
        · exact hupd _ _
    · split
      · split
        · exact herr _
        · exact hdel _
      · split
        · split
          · exact herr _
          · exact hprog _
        · split
          · split
            · exact herr _
            · exact hdone _
          · split
            · split
              · split
                · exact hlist _
                · exact herr _
              · exact hlist _
            · exact herr _

theorem tasksOf_initializeFile (w : World) : tasksOf (initializeFile w) = tasksOf w :=
  tasksOf_of_file _ _ (initializeFile_file w)

theorem initializeFile_clock (w : World) : (initializeFile w).clock = w.clock := by
  unfold initializeFile
  cases w.file <;> rfl

theorem tasksOf_consoleError (line : String) (w : World) :
    tasksOf (consoleError line w) = tasksOf w := by
  unfold tasksOf readTasks consoleError
  cases w.file <;> rfl

theorem tasksOf_addTask (d : String) (w : World) :
    tasksOf (addTask d w) = tasksOf w ∨
    tasksOf (addTask d w)
      = tasksOf w ++ [⟨roundToDouble (specId (tasksOf w)), d, "todo", w.clock 0, w.clock 1⟩] := by
  rcases addTask_file_cases d w with h | h
  · exact Or.inl (tasksOf_of_file _ _ h)
  · exact Or.inr (tasksOf_of_file _ _ h)

theorem tasksOf_deleteTask (s : String) (w : World) :
    tasksOf (deleteTask s w) = (tasksOf w).filter (fun t => !idIs s t) :=
  tasksOf_of_file _ _ (deleteTask_file s w)

theorem tasksOf_updateTask (s d : String) (w : World) :
    tasksOf (updateTask s d w) = modifyFirst (idIs s)
      (fun task => { task with description := d, updatedAt := w.clock 0 }) (tasksOf w) :=
  tasksOf_of_file _ _ (updateTask_file s d w)

theorem tasksOf_markTask (s status : String) (w : World) :
    tasksOf (markTask s status w) = modifyFirst (idIs s)
      (fun task => { task with status := status, updatedAt := w.clock 0 }) (tasksOf w) :=
  tasksOf_of_file _ _ (markTask_file s status w)

theorem tasksOf_listTasks (status : Option String) (w : World) :
    tasksOf (listTasks status w) = tasksOf w :=
  tasksOf_of_file _ _ (listTasks_file status w)

theorem mem_modifyFirst (p : Task → Bool) (f : Task → Task) (l : List Task) (u : Task)
    (hu : u ∈ modifyFirst p f l) : u ∈ l ∨ ∃ t ∈ l, u = f t := by
  induction l with
  | nil => simp [modifyFirst] at hu
  | cons t ts ih =>
    unfold modifyFirst at hu
    split at hu
    · rcases List.mem_cons.1 hu with h | h
      · exact Or.inr ⟨t, List.mem_cons_self _ _, h⟩
      · exact Or.inl (List.mem_cons_of_mem _ h)
    · rcases List.mem_cons.1 hu with h | h
      · exact Or.inl (h ▸ List.mem_cons_self _ _)
      · rcases ih h with h1 | ⟨t', ht', h1⟩
        · exact Or.inl (List.mem_cons_of_mem _ h1)
        · exact Or.inr ⟨t', List.mem_cons_of_mem _ ht', h1⟩

/-! ## Statuses -/

theorem statusesOk_markTask (s status : String) (w : World)
    (hst : status = "todo" ∨ status = "in-progress" ∨ status = "done")
    (hw : StatusesOk (tasksOf w)) : StatusesOk (tasksOf (markTask s status w)) := by
  rw [tasksOf_markTask]
  intro u hu
  rcases mem_modifyFirst _ _ _ u hu with h | ⟨t, _, rfl⟩
  · exact hw u h
  · exact hst

/-- C15: if every task of the store has status `todo`, `in-progress` or `done`, then so
has every task of the store after any command line handled by `main`. -/
theorem statuses_stay_defined (args : List String) (w : World)
    (hw : StatusesOk (tasksOf w)) : StatusesOk (tasksOf (main args w)) := by
  have hi : StatusesOk (tasksOf (initializeFile w)) := by
    rw [tasksOf_initializeFile]; exact hw
  apply main_cases (fun w' => StatusesOk (tasksOf w')) args w
  · intro line
    show StatusesOk (tasksOf (consoleError line (initializeFile w)))
    rw [tasksOf_consoleError]; exact hi
  · intro d
    show StatusesOk (tasksOf (catchError (addTask d (initializeFile w))))
    rw [tasksOf_catchError]
    rcases tasksOf_addTask d (initializeFile w) with ht | ht
    · rw [ht]; exact hi
    · rw [ht]
      intro u hu
      rcases List.mem_append.1 hu with h | h
      · exact hi u h
      · have : u.status = "todo" := by
          have hu' := List.mem_singleton.1 h
          rw [hu']
        exact Or.inl this
  · intro s d
    show StatusesOk (tasksOf (updateTask s d (initializeFile w)))
    rw [tasksOf_updateTask]
    intro u hu
    rcases mem_modifyFirst _ _ _ u hu with h | ⟨t, ht, rfl⟩
    · exact hi u h
    · exact hi t ht
  · intro s
    show StatusesOk (tasksOf (deleteTask s (initializeFile w)))
    rw [tasksOf_deleteTask]
    intro u hu
    exact hi u (List.mem_of_mem_filter hu)
  · intro s
    exact statusesOk_markTask s _ _ (Or.inr (Or.inl rfl)) hi
  · intro s
    exact statusesOk_markTask s _ _ (Or.inr (Or.inr rfl)) hi
  · intro status
    show StatusesOk (tasksOf (listTasks status (initializeFile w)))
    rw [tasksOf_listTasks]; exact hi

theorem statuses_stay_defined_witness :
    StatusesOk (tasksOf (sampleWorld [sampleTask 1 "a", sampleTask 2 "b"])) ∧
    StatusesOk (tasksOf (main ["mark-done", "2"]
      (sampleWorld [sampleTask 1 "a", sampleTask 2 "b"]))) :=
  ⟨by decide, statuses_stay_defined ["mark-done", "2"] _ (by decide)⟩

/-! ## Order of the timestamps -/

theorem timesOk_modifyFirst (p : Task → Bool) (f : Task → Task) (l : List Task)
    (hl : TimesOk l) (hf : ∀ t ∈ l, (f t).createdAt ≤ (f t).updatedAt) :
    TimesOk (modifyFirst p f l) := by
  intro u hu
  rcases mem_modifyFirst p f l u hu with h | ⟨t, ht, rfl⟩
  · exact hl u h
  · exact hf t ht

theorem timesOk_addTask (d : String) (w : World) (hclock : w.clock 0 ≤ w.clock 1)
    (hw : TimesOk (tasksOf w)) : TimesOk (tasksOf (addTask d w)) := by
  rcases tasksOf_addTask d w with ht | ht
  · rw [ht]; exact hw
  · rw [ht]
    intro u hu
    rcases List.mem_append.1 hu with h | h
    · exact hw u h
    · rw [List.mem_singleton.1 h]
      exact hclock

theorem timesOk_updateTask (s d : String) (w : World)
    (hpast : ∀ t ∈ tasksOf w, t.createdAt ≤ w.clock 0)
    (hw : TimesOk (tasksOf w)) : TimesOk (tasksOf (updateTask s d w)) := by
  rw [tasksOf_updateTask]
  exact timesOk_modifyFirst _ _ _ hw (fun t ht => hpast t ht)

theorem timesOk_markTask (s status : String) (w : World)
    (hpast : ∀ t ∈ tasksOf w, t.createdAt ≤ w.clock 0)
    (hw : TimesOk (tasksOf w)) : TimesOk (tasksOf (markTask s status w)) := by
  rw [tasksOf_markTask]
  exact timesOk_modifyFirst _ _ _ hw (fun t ht => hpast t ht)

theorem timesOk_deleteTask (s : String) (w : World)
    (hw : TimesOk (tasksOf w)) : TimesOk (tasksOf (deleteTask s w)) := by
  rw [tasksOf_deleteTask]
  intro u hu
  exact hw u (List.mem_of_mem_filter hu)

/-- C14: assume the clock never goes backwards and no task of the store has a timestamp
later than the current clock reading.  If every task of the store has
`updatedAt ≥ createdAt`, then so has every task of the store after `add`, `update`,
`delete` and marking a status, and after any command line handled by `main`. -/
theorem times_stay_ordered (w : World)
    (hclock : ∀ n, w.clock n ≤ w.clock (n + 1))
    (hpast : ∀ t ∈ tasksOf w, t.createdAt ≤ w.clock 0 ∧ t.updatedAt ≤ w.clock 0)
    (hw : TimesOk (tasksOf w)) :
    (∀ d, TimesOk (tasksOf (addTask d w))) ∧
    (∀ s d, TimesOk (tasksOf (updateTask s d w))) ∧
    (∀ s, TimesOk (tasksOf (deleteTask s w))) ∧
    (∀ s, TimesOk (tasksOf (markTask s "in-progress" w)) ∧
      TimesOk (tasksOf (markTask s "done" w))) ∧
    (∀ args, TimesOk (tasksOf (main args w))) := by
  have hc : ∀ t ∈ tasksOf w, t.createdAt ≤ w.clock 0 := fun t ht => (hpast t ht).1
  have hi : TimesOk (tasksOf (initializeFile w)) := by
    rw [tasksOf_initializeFile]; exact hw
  have hci : ∀ t ∈ tasksOf (initializeFile w), t.createdAt ≤ (initializeFile w).clock 0 := by
    rw [tasksOf_initializeFile, initializeFile_clock]; exact hc
  have hclocki : (initializeFile w).clock 0 ≤ (initializeFile w).clock 1 := by
    rw [initializeFile_clock]; exact hclock 0
  refine ⟨fun d => timesOk_addTask d w (hclock 0) hw,
    fun s d => timesOk_updateTask s d w hc hw,
    fun s => timesOk_deleteTask s w hw,
    fun s => ⟨timesOk_markTask s _ w hc hw, timesOk_markTask s _ w hc hw⟩, ?_⟩
  intro args
  apply main_cases (fun w' => TimesOk (tasksOf w')) args w
  · intro line
    show TimesOk (tasksOf (consoleError line (initializeFile w)))
    rw [tasksOf_consoleError]; exact hi
  · intro d
    show TimesOk (tasksOf (catchError (addTask d (initializeFile w))))
    rw [tasksOf_catchError]
    exact timesOk_addTask d _ hclocki hi
  · intro s d; exact timesOk_updateTask s d _ hci hi
  · intro s; exact timesOk_deleteTask s _ hi
  · intro s; exact timesOk_markTask s _ _ hci hi
  · intro s; exact timesOk_markTask s _ _ hci hi
  · intro status
    show TimesOk (tasksOf (listTasks status (initializeFile w)))
    rw [tasksOf_listTasks]; exact hi

theorem sampleClock_mono (n : Nat) : sampleClock n ≤ sampleClock (n + 1) := by
  cases n with
  | zero =>
    show ("2024-01-01T00:00:00.000Z" : String) ≤ "2024-01-01T00:00:00.001Z"
    rw [String.le_iff_toList_le]
    decide
  | succ m => exact le_refl _

theorem sampleTask_before_sampleClock :
    ("2023-12-31T00:00:00.000Z" : String) ≤ "2024-01-01T00:00:00.000Z" := by
  rw [String.le_iff_toList_le]
  decide

theorem times_stay_ordered_witness :
    (∀ n, (sampleWorld [sampleTask 1 "a"]).clock n
      ≤ (sampleWorld [sampleTask 1 "a"]).clock (n + 1)) ∧
    (∀ t ∈ tasksOf (sampleWorld [sampleTask 1 "a"]),
      t.createdAt ≤ (sampleWorld [sampleTask 1 "a"]).clock 0 ∧
      t.updatedAt ≤ (sampleWorld [sampleTask 1 "a"]).clock 0) ∧
    TimesOk (tasksOf (sampleWorld [sampleTask 1 "a"])) ∧
    TimesOk (tasksOf (main ["mark-done", "1"] (sampleWorld [sampleTask 1 "a"]))) ∧
    TimesOk (tasksOf (addTask "b" (sampleWorld [sampleTask 1 "a"]))) :=
  have h1 : ∀ n, (sampleWorld [sampleTask 1 "a"]).clock n
      ≤ (sampleWorld [sampleTask 1 "a"]).clock (n + 1) := sampleClock_mono
  have h2 : ∀ t ∈ tasksOf (sampleWorld [sampleTask 1 "a"]),
      t.createdAt ≤ (sampleWorld [sampleTask 1 "a"]).clock 0 ∧
      t.updatedAt ≤ (sampleWorld [sampleTask 1 "a"]).clock 0 := by
    intro t ht
    have ht' : t = sampleTask 1 "a" := List.mem_singleton.1 ht
    rw [ht']
    exact ⟨sampleTask_before_sampleClock, sampleTask_before_sampleClock⟩
  have h3 : TimesOk (tasksOf (sampleWorld [sampleTask 1 "a"])) := by
    intro t ht
    have ht' : t = sampleTask 1 "a" := List.mem_singleton.1 ht
    rw [ht']
    exact le_refl _
  ⟨h1, h2, h3,
    (times_stay_ordered (sampleWorld [sampleTask 1 "a"]) h1 h2 h3).2.2.2.2 ["mark-done", "1"],
    (times_stay_ordered (sampleWorld [sampleTask 1 "a"]) h1 h2 h3).1 "b"⟩

/-! ## Stores with repeated ids -/

theorem modifyFirst_append_cons (p : Task → Bool) (f : Task → Task)
    (before after : List Task) (target : Task)
    (hb : ∀ t ∈ before, p t = false) (ht : p target = true) :
    modifyFirst p f (before ++ target :: after) = before ++ f target :: after := by
  induction before with
  | nil => simp [modifyFirst, ht]
  | cons b bs ih =>
    have hb0 : p b = false := hb b (List.mem_cons_self _ _)
    simp [modifyFirst, hb0, ih (fun t h => hb t (List.mem_cons_of_mem _ h))]

/-- C20: whatever ids repeat in the store, `delete i` writes the store without any task
of id `i` (all of them are removed), whereas `update i` and marking change only the first
task of id `i` in sequence order: the tasks before it and all the tasks after it,
including later ones with id `i`, are left unchanged. -/
theorem repeated_ids_delete_all_modify_first (w : World) (tasks : List Task)
    (s d status : String) (i : Int) (h : w.file = some tasks) (hs : parseInt s = some i) :
    (deleteTask s w).file = some (tasks.filter (fun t => decide (t.id ≠ i))) ∧
    (∀ tasks', (deleteTask s w).file = some tasks' → ∀ t ∈ tasks', t.id ≠ i) ∧
    (∀ before target after, tasks = before ++ target :: after → target.id = i →
      (∀ t ∈ before, t.id ≠ i) →
      (updateTask s d w).file
        = some (before ++ { target with description := d, updatedAt := w.clock 0 } :: after) ∧
      (markTask s status w).file
        = some (before ++ { target with status := status, updatedAt := w.clock 0 } :: after)) := by
  have hdel : (deleteTask s w).file = some (tasks.filter (fun t => decide (t.id ≠ i))) := by
    rw [deleteTask_file, tasksOf_of_file w tasks h, deleteTask_filter_of_parse s i hs]
  refine ⟨hdel, ?_, ?_⟩
  · intro tasks' hfile t ht
    rw [hdel] at hfile
    have := Option.some.inj hfile
    subst this
    simpa using (List.mem_filter.1 ht).2
  · intro before target after htasks hid hbefore
    have hb : ∀ t ∈ before, idIs s t = false := by
      intro t ht
      rw [idIs_eq_false_iff, hs]
      intro heq
      exact hbefore t ht (Option.some.inj heq).symm
    have ht : idIs s target = true := (idIs_iff_of_parse s i hs target).2 hid
    constructor
    · rw [updateTask_file, tasksOf_of_file w tasks h, htasks,
        modifyFirst_append_cons _ _ before after target hb ht]
    · rw [markTask_file, tasksOf_of_file w tasks h, htasks,
        modifyFirst_append_cons _ _ before after target hb ht]

theorem repeated_ids_delete_all_modify_first_witness :
    (sampleWorld [sampleTask 1 "a", sampleTask 2 "b", sampleTask 2 "c"]).file
      = some [sampleTask 1 "a", sampleTask 2 "b", sampleTask 2 "c"] ∧
    parseInt "2" = some 2 ∧
    (deleteTask "2" (sampleWorld [sampleTask 1 "a", sampleTask 2 "b", sampleTask 2 "c"])).file
      = some [sampleTask 1 "a"] ∧
    (updateTask "2" "x" (sampleWorld [sampleTask 1 "a", sampleTask 2 "b", sampleTask 2 "c"])).file
      = some ([sampleTask 1 "a"]
          ++ ⟨2, "x", "todo", "2023-12-31T00:00:00.000Z", "2024-01-01T00:00:00.000Z"⟩
            :: [sampleTask 2 "c"]) :=
  ⟨rfl, by decide, by decide,
    ((repeated_ids_delete_all_modify_first
      (sampleWorld [sampleTask 1 "a", sampleTask 2 "b", sampleTask 2 "c"])
      [sampleTask 1 "a", sampleTask 2 "b", sampleTask 2 "c"] "2" "x" "done" 2 rfl
      (by decide)).2.2 [sampleTask 1 "a"] (sampleTask 2 "b") [sampleTask 2 "c"] rfl rfl
      (by decide)).1⟩

/-! ## Reading back a quoted string -/

namespace JSON

theorem hex4_hexDigit : ∀ n : Fin 32,
    hex4 '0' '0' (hexDigit (n.val / 16)) (hexDigit (n.val % 16)) = some n.val := by
  decide

theorem parseEscape_u00 (n : Nat) (hn : n < 32) (rest : List Char) :
    parseEscape ('u' :: '0' :: '0' :: hexDigit (n / 16) :: hexDigit (n % 16) :: rest)
      = .ok (Char.ofNat n, 5) := by
  have hx := hex4_hexDigit ⟨n, hn⟩
  simp only at hx
  have hlt : n < 55296 ∨ 57344 ≤ n := Or.inl (by omega)
  show unicodeEscape ('0' :: '0' :: hexDigit (n / 16) :: hexDigit (n % 16) :: rest) = _
  rw [unicodeEscape, hx]
  simp only [hlt, if_true]

theorem parseStringLoop_backslash (cs : List Char) :
    parseStringLoop 0 ('\\' :: cs)
      = match parseEscape cs with
        | Except.error e => Except.error e
        | Except.ok (ch, n) => consChar ch (parseStringLoop n cs) := rfl

theorem parseStringChars_quoteChar (c : Char) (rest : List Char) :
    parseStringChars (quoteChar c ++ rest) = consChar c (parseStringChars rest) := by
  have hc : Char.ofNat c.toNat = c := Char.ofNat_toNat c
  unfold quoteChar
  simp only
  split_ifs with h8 h9 h10 h12 h13 h34 h92 h32
  · rw [← hc, h8]; rfl
  · rw [← hc, h9]; rfl
  · rw [← hc, h10]; rfl
  · rw [← hc, h12]; rfl
  · rw [← hc, h13]; rfl
  · rw [← hc, h34]; rfl
  · rw [← hc, h92]; rfl
  · show parseStringLoop 0 ('\\' :: 'u' :: '0' :: '0' :: hexDigit (c.toNat / 16)
        :: hexDigit (c.toNat % 16) :: rest) = _
    rw [parseStringLoop_backslash, parseEscape_u00 c.toNat h32 rest, hc]
    rfl
  · show parseStringLoop 0 (c :: rest) = _
    rw [parseStringLoop]
    simp only [h34, h92, h32, if_false]
    rfl

theorem parseStringChars_quoteChars (cs rest : List Char) :
    parseStringChars (quoteChars cs ++ '"' :: rest) = .ok (cs, rest) := by
  induction cs with
  | nil => rfl
  | cons c cs ih =>
    rw [quoteChars, List.append_assoc, parseStringChars_quoteChar, ih]
    rfl

end JSON

/-! ## Reading back a printed integer -/

namespace JSON

theorem digitChar_toNat : ∀ d : Fin 10, (Nat.digitChar d.val).toNat = 48 + d.val := by
  decide

theorem digitsValue_append_singleton (l : List Char) (c : Char) :
    digitsValue (l ++ [c]) = digitsValue l * 10 + (c.toNat - 48) := by
  simp [digitsValue, List.foldl_append]

/-- What `Nat.toDigitsCore 10` puts in front of its accumulator: a non-empty run of decimal
digits whose value is `n`, starting with `0` only when `n = 0`. -/
theorem toDigitsCore_spec (fuel n : Nat) (ds : List Char) (h : n < fuel) :
    ∃ l : List Char, Nat.toDigitsCore 10 fuel n ds = l ++ ds ∧ l ≠ [] ∧
      (∀ c ∈ l, isDigit c = true) ∧ digitsValue l = n ∧
      (∀ c, l.head? = some c → c.toNat = 48 → l = [c]) := by
  induction fuel generalizing n ds with
  | zero => omega
  | succ fuel ih =>
    have hd := digitChar_toNat ⟨n % 10, Nat.mod_lt n (by decide)⟩
    simp only at hd
    have hdig : isDigit (Nat.digitChar (n % 10)) = true := by
      have := Nat.mod_lt n (show 0 < 10 by decide)
      simp [isDigit, hd]
      omega
    rw [Nat.toDigitsCore]
    by_cases h0 : n / 10 = 0
    · rw [if_pos h0]
      refine ⟨[Nat.digitChar (n % 10)], rfl, by simp, ?_, ?_, ?_⟩
      · intro c hc
        rw [List.mem_singleton.1 hc]; exact hdig
      · simp [digitsValue, hd]
        omega
      · intro c hc _
        simp at hc
        rw [hc]
    · rw [if_neg h0]
      have hlt : n / 10 < fuel := by omega
      obtain ⟨l, hl, hne, hall, hval, hhead⟩ := ih (n / 10) (Nat.digitChar (n % 10) :: ds) hlt
      refine ⟨l ++ [Nat.digitChar (n % 10)], by rw [hl]; simp, by simp, ?_, ?_, ?_⟩
      · intro c hc
        rcases List.mem_append.1 hc with h1 | h1
        · exact hall c h1
        · rw [List.mem_singleton.1 h1]; exact hdig
      · rw [digitsValue_append_singleton, hval, hd]
        omega
      · intro c hc h48
        exfalso
        cases l with
        | nil => exact hne rfl
        | cons x xs =>
          have hx : x = c := by simpa using hc
          have hxs := hhead x rfl (hx ▸ h48)
          have hv : digitsValue [x] = n / 10 := by rw [← hxs]; exact hval
          simp [digitsValue, hx, h48] at hv
          omega

theorem spanDigits_append (l rest : List Char) (hl : ∀ c ∈ l, isDigit c = true)
    (hrest : ∀ c, rest.head? = some c → isDigit c = false) :
    spanDigits (l ++ rest) = (l, rest) := by
  induction l with
  | nil =>
    cases rest with
    | nil => rfl
    | cons r rs =>
      have := hrest r rfl
      simp [spanDigits, this]
  | cons c cs ih =>
    have hc := hl c (List.mem_cons_self _ _)
    have ih' := ih (fun d hd => hl d (List.mem_cons_of_mem _ hd))
    simp [spanDigits, hc, ih']

/-- Reading the decimal digits of a natural number, followed by a comma. -/
theorem parseNumber_toDigits (n : Nat) (rest : List Char) :
    parseNumber (Nat.toDigits 10 n ++ ',' :: rest) = .ok ((n : Int), ',' :: rest) := by
  obtain ⟨l, hl, hne, hall, hval, hhead⟩ := toDigitsCore_spec (n + 1) n [] (Nat.lt_succ_self n)
  have hl' : Nat.toDigits 10 n = l := by
    rw [Nat.toDigits, hl, List.append_nil]
  rw [hl']
  cases l with
  | nil => exact absurd rfl hne
  | cons c cs =>
    have hcd : isDigit c = true := hall c (List.mem_cons_self _ _)
    have hcs : ∀ d ∈ cs, isDigit d = true := fun d hd => hall d (List.mem_cons_of_mem _ hd)
    have hrest : ∀ d, (',' :: rest).head? = some d → isDigit d = false := by
      intro d hd
      have : d = ',' := by simpa using hd.symm
      rw [this]; rfl
    have hspan := spanDigits_append cs (',' :: rest) hcs hrest
    have hneg : ¬ c.toNat = 45 := by
      intro h45
      simp [isDigit, h45] at hcd
    have hint : parseIntegerPart (c :: cs ++ ',' :: rest) = .ok (c :: cs, ',' :: rest) := by
      show parseIntegerPart (c :: (cs ++ ',' :: rest)) = _
      rw [parseIntegerPart]
      by_cases h48 : c.toNat = 48
      · have hcs' : c :: cs = [c] := hhead c rfl h48
        have : cs = [] := by simpa using hcs'
        subst this
        rw [if_pos h48]; rfl
      · rw [if_neg h48, if_pos hcd, hspan]
    unfold parseNumber
    simp only [List.cons_append, List.head?_cons, Option.map_some', Option.some.injEq, hneg,
      if_false]
    rw [show c :: (cs ++ ',' :: rest) = c :: cs ++ ',' :: rest from rfl, hint]
    simp only
    have hfrac : parseFractionPart (',' :: rest) = .ok ([], ',' :: rest) := rfl
    have hexp : parseExponentPart (',' :: rest) = .ok (0, ',' :: rest) := rfl
    rw [hfrac]
    simp only
    rw [hexp]
    simp only [List.append_nil, List.length_nil, Nat.cast_zero, sub_self, hval]
    have hsc : scaled n 0 = .ok (n : Int) := by
      show scaled n (Int.ofNat 0) = _
      simp [scaled]
    rw [hsc]

/-- Reading a printed integer, followed by a comma. -/
theorem parseNumber_toString (i : Int) (rest : List Char) :
    parseNumber ((toString i).data ++ ',' :: rest) = .ok (i, ',' :: rest) := by
  cases i with
  | ofNat n => exact parseNumber_toDigits n rest
  | negSucc n =>
    have hdata : (toString (Int.negSucc n)).data = '-' :: Nat.toDigits 10 (n + 1) := rfl
    rw [hdata]
    have h := parseNumber_toDigits (n + 1) rest
    unfold parseNumber at h ⊢
    obtain ⟨l, hl, hne, hall, _, _⟩ :=
      toDigitsCore_spec (n + 1 + 1) (n + 1) [] (Nat.lt_succ_self _)
    have hl' : Nat.toDigits 10 (n + 1) = l := by
      rw [Nat.toDigits, hl, List.append_nil]
    rw [hl'] at h ⊢
    cases l with
    | nil => exact absurd rfl hne
    | cons c cs =>
      have hcd : isDigit c = true := hall c (List.mem_cons_self _ _)
      have hneg : ¬ c.toNat = 45 := by
        intro h45
        simp [isDigit, h45] at hcd
      simp only [List.cons_append, List.head?_cons, Option.map_some', Option.some.injEq, hneg,
        if_false] at h
      simp only [List.cons_append, List.head?_cons, Option.map_some', Char.reduceToNat,
        if_true, List.tail_cons]
      revert h
      cases parseIntegerPart (c :: (cs ++ ',' :: rest)) with
      | error e => intro h; cases h
      | ok r1 =>
        obtain ⟨ip, cs1⟩ := r1
        simp only
        cases parseFractionPart cs1 with
        | error e => intro h; cases h
        | ok r2 =>
          obtain ⟨fp, cs2⟩ := r2
          simp only
          cases parseExponentPart cs2 with
          | error e => intro h; cases h
          | ok r3 =>
            obtain ⟨ex, cs3⟩ := r3
            simp only
            cases scaled (digitsValue (ip ++ fp)) (ex - ↑fp.length) with
            | error e => intro h; cases h
            | ok v =>
              simp only
              intro h
              injection h with h
              injection h with hv hr
              rw [hv, hr]
              rfl

end JSON

/-! ## Reading back a task record -/

namespace JSON

theorem parseValue_string (fuel : Nat) (s : String) (rest : List Char) :
    parseValue (fuel + 1) (' ' :: (QuoteJSONString s ++ rest)) = .ok (.str s, rest) := by
  show (match parseStringChars (quoteChars s.data ++ ['"'] ++ rest) with
    | Except.ok (s, rest1) => Except.ok (Json.str ⟨s⟩, rest1)
    | Except.error e => Except.error e) = _
  rw [List.append_assoc, List.singleton_append, parseStringChars_quoteChars]

theorem toString_int_data (i : Int) :
    ∃ c cs, (toString i).data = c :: cs ∧ (c.toNat = 45 ∨ isDigit c = true) := by
  cases i with
  | ofNat n =>
    obtain ⟨l, hl, hne, hall, _, _⟩ := toDigitsCore_spec (n + 1) n [] (Nat.lt_succ_self n)
    have hl' : (toString (Int.ofNat n)).data = l := by
      show Nat.toDigitsCore 10 (n + 1) n [] = l
      rw [hl, List.append_nil]
    cases l with
    | nil => exact absurd rfl hne
    | cons c cs => exact ⟨c, cs, hl', Or.inr (hall c (List.mem_cons_self _ _))⟩
  | negSucc n => exact ⟨'-', Nat.toDigits 10 (n + 1), rfl, Or.inl rfl⟩

theorem parseValue_number (fuel : Nat) (i : Int) (rest : List Char) :
    parseValue (fuel + 1) (' ' :: ((toString i).data ++ ',' :: rest))
      = .ok (.num i, ',' :: rest) := by
  have hnum := parseNumber_toString i rest
  obtain ⟨c, cs, hdata, hc⟩ := toString_int_data i
  rw [hdata] at hnum ⊢
  have hws : isWhiteSpace c = false := by
    rcases hc with h | h
    · simp [isWhiteSpace, h]
    · simp only [isDigit, Bool.and_eq_true, decide_eq_true_eq] at h
      simp only [isWhiteSpace, Bool.or_eq_false_iff, beq_eq_false_iff_ne, ne_eq]
      omega
  have h123 : ¬ c.toNat = 123 := by
    rcases hc with h | h
    · omega
    · simp only [isDigit, Bool.and_eq_true, decide_eq_true_eq] at h; omega
  have h91 : ¬ c.toNat = 91 := by
    rcases hc with h | h
    · omega
    · simp only [isDigit, Bool.and_eq_true, decide_eq_true_eq] at h; omega
  have h34 : ¬ c.toNat = 34 := by
    rcases hc with h | h
    · omega
    · simp only [isDigit, Bool.and_eq_true, decide_eq_true_eq] at h; omega
  rw [parseValue]
  have hskip : skipWhiteSpace (' ' :: (c :: cs ++ ',' :: rest)) = c :: (cs ++ ',' :: rest) := by
    show skipWhiteSpace (c :: (cs ++ ',' :: rest)) = _
    rw [skipWhiteSpace, hws]
    rfl
  rw [hskip]
  simp only [h123, h91, h34, if_false, hc, if_true]
  rw [show c :: (cs ++ ',' :: rest) = c :: cs ++ ',' :: rest from rfl, hnum]

/-- One member of an object that is followed by a comma. -/
theorem parseMembers_step (fuel : Nat) (members : List (String × Json)) (key : String)
    (v : Json) (cs valueText rest rest1 : List Char)
    (hcs : skipWhiteSpace cs = '"' :: (key.data ++ '"' :: ':' :: valueText))
    (hkey : ∀ r, parseStringChars (key.data ++ '"' :: r) = .ok (key.data, r))
    (hvalue : parseValue fuel valueText = .ok (v, rest))
    (hrest : skipWhiteSpace rest = ',' :: rest1) :
    parseMembers (fuel + 1) members cs
      = parseMembers fuel (defineProperty members key v) rest1 := by
  rw [parseMembers, hcs]
  simp only [Char.reduceToNat, if_true, hkey]
  have hcolon : skipWhiteSpace (':' :: valueText) = ':' :: valueText := rfl
  rw [hcolon]
  simp only [Char.reduceToNat, if_true, hvalue, hrest]
  rfl

/-- The last member of an object. -/
theorem parseMembers_last (fuel : Nat) (members : List (String × Json)) (key : String)
    (v : Json) (cs valueText rest rest1 : List Char)
    (hcs : skipWhiteSpace cs = '"' :: (key.data ++ '"' :: ':' :: valueText))
    (hkey : ∀ r, parseStringChars (key.data ++ '"' :: r) = .ok (key.data, r))
    (hvalue : parseValue fuel valueText = .ok (v, rest))
    (hrest : skipWhiteSpace rest = '}' :: rest1) :
    parseMembers (fuel + 1) members cs = .ok (defineProperty members key v, rest1) := by
  rw [parseMembers, hcs]
  simp only [Char.reduceToNat, if_true, hkey]
  have hcolon : skipWhiteSpace (':' :: valueText) = ':' :: valueText := rfl
  rw [hcolon]
  simp only [Char.reduceToNat, if_true, hvalue, hrest]

end JSON

namespace JSON

theorem taskText_eq (t : Task) :
    taskText t = '{' :: '\n' :: ' ' :: ' ' :: ' ' :: ' ' :: '"' :: ("id".data ++ '"' :: ':'
      :: ' ' :: ((toString t.id).data ++ ',' :: '\n' :: ' ' :: ' ' :: ' ' :: ' ' :: '"'
      :: ("description".data ++ '"' :: ':' :: ' ' :: (QuoteJSONString t.description
      ++ ',' :: '\n' :: ' ' :: ' ' :: ' ' :: ' ' :: '"'
      :: ("status".data ++ '"' :: ':' :: ' ' :: (QuoteJSONString t.status
      ++ ',' :: '\n' :: ' ' :: ' ' :: ' ' :: ' ' :: '"'
      :: ("createdAt".data ++ '"' :: ':' :: ' ' :: (QuoteJSONString t.createdAt
      ++ ',' :: '\n' :: ' ' :: ' ' :: ' ' :: ' ' :: '"'
      :: ("updatedAt".data ++ '"' :: ':' :: ' ' :: (QuoteJSONString t.updatedAt
      ++ '\n' :: ' ' :: ' ' :: ['}'])))))))))) := by
  simp [taskText, Task.toJson, SerializeJSONProperty, serializeMembers, wrap, joinWith,
    QuoteJSONString, quoteChars, quoteChar]

end JSON

namespace JSON

theorem parseMembers_number_member (fuel : Nat) (members : List (String × Json))
    (key : String) (i : Int) (rest : List Char)
    (hkey : ∀ r, parseStringChars (key.data ++ '"' :: r) = .ok (key.data, r)) :
    parseMembers (fuel + 2) members
        ('"' :: (key.data ++ '"' :: ':' :: ' ' :: ((toString i).data ++ ',' :: rest)))
      = parseMembers (fuel + 1) (defineProperty members key (.num i)) rest :=
  parseMembers_step (fuel + 1) members key (.num i) _
    (' ' :: ((toString i).data ++ ',' :: rest)) (',' :: rest) rest rfl hkey
    (parseValue_number fuel i rest) rfl

theorem parseMembers_string_member (fuel : Nat) (members : List (String × Json))
    (key s : String) (rest : List Char)
    (hkey : ∀ r, parseStringChars (key.data ++ '"' :: r) = .ok (key.data, r)) :
    parseMembers (fuel + 2) members
        ('\n' :: ' ' :: ' ' :: ' ' :: ' ' :: '"'
          :: (key.data ++ '"' :: ':' :: ' ' :: (QuoteJSONString s ++ ',' :: rest)))
      = parseMembers (fuel + 1) (defineProperty members key (.str s)) rest :=
  parseMembers_step (fuel + 1) members key (.str s) _
    (' ' :: (QuoteJSONString s ++ ',' :: rest)) (',' :: rest) rest rfl hkey
    (parseValue_string fuel s (',' :: rest)) rfl

theorem parseMembers_last_string_member (fuel : Nat) (members : List (String × Json))
    (key s : String) (rest : List Char)
    (hkey : ∀ r, parseStringChars (key.data ++ '"' :: r) = .ok (key.data, r)) :
    parseMembers (fuel + 2) members
        ('\n' :: ' ' :: ' ' :: ' ' :: ' ' :: '"'
          :: (key.data ++ '"' :: ':' :: ' '
            :: (QuoteJSONString s ++ '\n' :: ' ' :: ' ' :: '}' :: rest)))
      = .ok (defineProperty members key (.str s), rest) :=
  parseMembers_last (fuel + 1) members key (.str s) _
    (' ' :: (QuoteJSONString s ++ '\n' :: ' ' :: ' ' :: '}' :: rest))
    ('\n' :: ' ' :: ' ' :: '}' :: rest) rest rfl hkey
    (parseValue_string fuel s ('\n' :: ' ' :: ' ' :: '}' :: rest)) rfl

theorem defineProperty_task (a b c d e : Json) :
    defineProperty (defineProperty (defineProperty (defineProperty
      (defineProperty [] "id" a) "description" b) "status" c) "createdAt" d) "updatedAt" e
      = [("id", a), ("description", b), ("status", c), ("createdAt", d), ("updatedAt", e)] := by
  rfl

/-- Reading the members of the text of one task record. -/
theorem parseMembers_task (fuel : Nat) (t : Task) (rest : List Char) :
    parseMembers (fuel + 6) []
      ('"' :: ("id".data ++ '"' :: ':'
      :: ' ' :: ((toString t.id).data ++ ',' :: '\n' :: ' ' :: ' ' :: ' ' :: ' ' :: '"'
      :: ("description".data ++ '"' :: ':' :: ' ' :: (QuoteJSONString t.description
      ++ ',' :: '\n' :: ' ' :: ' ' :: ' ' :: ' ' :: '"'
      :: ("status".data ++ '"' :: ':' :: ' ' :: (QuoteJSONString t.status
      ++ ',' :: '\n' :: ' ' :: ' ' :: ' ' :: ' ' :: '"'
      :: ("createdAt".data ++ '"' :: ':' :: ' ' :: (QuoteJSONString t.createdAt
      ++ ',' :: '\n' :: ' ' :: ' ' :: ' ' :: ' ' :: '"'
      :: ("updatedAt".data ++ '"' :: ':' :: ' ' :: (QuoteJSONString t.updatedAt
      ++ '\n' :: ' ' :: ' ' :: '}' :: rest)))))))))))
      = .ok ([("id", .num t.id), ("description", .str t.description),
          ("status", .str t.status), ("createdAt", .str t.createdAt),
          ("updatedAt", .str t.updatedAt)], rest) :=
  (parseMembers_number_member (fuel + 4) [] "id" t.id _ (fun _ => rfl)).trans
    ((parseMembers_string_member (fuel + 3) _ "description" t.description _
        (fun _ => rfl)).trans
      ((parseMembers_string_member (fuel + 2) _ "status" t.status _ (fun _ => rfl)).trans
        ((parseMembers_string_member (fuel + 1) _ "createdAt" t.createdAt _
            (fun _ => rfl)).trans
          ((parseMembers_last_string_member fuel _ "updatedAt" t.updatedAt rest
              (fun _ => rfl)).trans
            (congrArg (fun m => Except.ok (m, rest)) (defineProperty_task _ _ _ _ _))))))

theorem parseValue_of_members (fuel : Nat) (cs x : List Char) (d : Char)
    (members : List (String × Json)) (rest : List Char)
    (hcs : skipWhiteSpace cs = '{' :: x) (hx : skipWhiteSpace x = d :: (skipWhiteSpace x).tail)
    (hd : ¬ d.toNat = 125)
    (hm : parseMembers fuel [] (skipWhiteSpace x) = .ok (members, rest)) :
    parseValue (fuel + 1) cs = .ok (.obj members, rest) := by
  rw [parseValue, hcs]
  simp only [Char.reduceToNat, if_true]
  rw [hx] at hm ⊢
  simp only [hd, if_false, hm]

/-- Reading the text of one task record gives back the record. -/
theorem parseValue_taskText (fuel : Nat) (t : Task) (ws rest : List Char)
    (hws : ∀ x, skipWhiteSpace (ws ++ '{' :: x) = '{' :: x) :
    parseValue (fuel + 7) (ws ++ (taskText t ++ rest)) = .ok (t.toJson, rest) := by
  have htext : ∃ x, taskText t ++ rest = '{' :: x ∧
      parseMembers (fuel + 6) [] (skipWhiteSpace x) = .ok ([("id", .num t.id),
        ("description", .str t.description), ("status", .str t.status),
        ("createdAt", .str t.createdAt), ("updatedAt", .str t.updatedAt)], rest) ∧
      ∃ d, skipWhiteSpace x = d :: (skipWhiteSpace x).tail ∧ ¬ d.toNat = 125 := by
    rw [taskText_eq]
    simp only [List.cons_append, List.append_assoc, List.nil_append]
    exact ⟨_, rfl, parseMembers_task fuel t rest, '"', rfl, by decide⟩
  obtain ⟨x, hx, hm, d, hd, hd125⟩ := htext
  rw [hx]
  exact parseValue_of_members (fuel + 6) _ x d _ rest (hws x) hd hd125 hm

end JSON

/-! ## Reading back a sequence of task records -/

namespace JSON

theorem taskText_ne_nil (t : Task) : taskText t ≠ [] := by
  rw [taskText_eq]; exact List.cons_ne_nil _ _

/-- Reading the elements of the array text of a non-empty sequence of tasks. -/
theorem parseElements_tasks (fuel : Nat) (t : Task) (ts : List Task) (ws rest : List Char)
    (hws : ∀ x, skipWhiteSpace (ws ++ '{' :: x) = '{' :: x) :
    parseElements (fuel + ts.length + 8)
        (ws ++ (joinWith [',', '\n', ' ', ' '] ((t :: ts).map taskText)
          ++ '\n' :: ']' :: rest))
      = .ok ((t :: ts).map Task.toJson, rest) := by
  induction ts generalizing t ws with
  | nil =>
    show parseElements (fuel + 7 + 1) (ws ++ (taskText t ++ '\n' :: ']' :: rest)) = _
    rw [parseElements, parseValue_taskText fuel t ws _ hws]
    rfl
  | cons u us ih =>
    have hjoin : joinWith [',', '\n', ' ', ' '] ((t :: u :: us).map taskText)
          ++ '\n' :: ']' :: rest
        = taskText t ++ (',' :: (['\n', ' ', ' ']
          ++ (joinWith [',', '\n', ' ', ' '] ((u :: us).map taskText)
            ++ '\n' :: ']' :: rest))) := by
      simp [joinWith, List.append_assoc]
    have hfuel : fuel + (u :: us).length + 8 = (fuel + us.length + 1) + 7 + 1 := by
      simp only [List.length_cons]; omega
    rw [hjoin, hfuel, parseElements, parseValue_taskText (fuel + us.length + 1) t ws _ hws]
    have hskip : ∀ x, skipWhiteSpace (',' :: x) = ',' :: x := fun _ => rfl
    simp only [hskip, Char.reduceToNat, Nat.reduceEqDiff, if_false, if_true]
    have hfuel' : fuel + us.length + 1 + 7 = fuel + us.length + 8 := by omega
    rw [hfuel', ih u ['\n', ' ', ' '] (fun _ => rfl)]
    rfl

theorem length_joinWith_ge (sep : List Char) (parts : List (List Char))
    (h : ∀ p ∈ parts, p ≠ []) : parts.length ≤ (joinWith sep parts).length := by
  induction parts with
  | nil => simp
  | cons p ps ih =>
    have hp : 1 ≤ p.length := by
      have := h p (List.mem_cons_self _ _)
      cases p with
      | nil => exact absurd rfl this
      | cons _ _ => simp
    have ih' := ih (fun q hq => h q (List.mem_cons_of_mem _ hq))
    cases ps with
    | nil => simpa [joinWith] using hp
    | cons q qs =>
      simp only [joinWith, List.length_append, List.length_cons] at ih' ⊢
      omega

theorem serialize_tasks_cons (t : Task) (ts : List Task) :
    SerializeJSONProperty [' ', ' '] [] (tasksToJson (t :: ts))
      = '[' :: '\n' :: ' ' :: ' ' :: (joinWith [',', '\n', ' ', ' '] ((t :: ts).map taskText)
          ++ '\n' :: ']' :: []) := by
  have hitems : ∀ l : List Task,
      serializeItems [' ', ' '] [' ', ' '] (l.map Task.toJson) = l.map taskText := by
    intro l
    induction l with
    | nil => rfl
    | cons a as ih => simp only [List.map_cons, serializeItems, ih, taskText]
  simp only [tasksToJson, SerializeJSONProperty, List.nil_append, hitems]
  simp [wrap]

/-- `JSON.parse` gives back the sequence of task records that `JSON.stringify(tasks, null, 2)`
wrote. -/
theorem parse_stringify_tasks (tasks : List Task) :
    parse (stringify (tasksToJson tasks) 2) = .ok (tasksToJson tasks) := by
  cases tasks with
  | nil => rfl
  | cons t ts =>
    have hdata : (stringify (tasksToJson (t :: ts)) 2).data
        = '[' :: '\n' :: ' ' :: ' ' :: (joinWith [',', '\n', ' ', ' '] ((t :: ts).map taskText)
            ++ '\n' :: ']' :: []) := serialize_tasks_cons t ts
    have hlen : (t :: ts).length
        ≤ (joinWith [',', '\n', ' ', ' '] ((t :: ts).map taskText)).length := by
      have := length_joinWith_ge [',', '\n', ' ', ' '] ((t :: ts).map taskText) (by
        intro p hp
        obtain ⟨a, _, rfl⟩ := List.mem_map.1 hp
        exact taskText_ne_nil a)
      simpa using this
    obtain ⟨fuel, hfuel⟩ : ∃ fuel, 2 * (stringify (tasksToJson (t :: ts)) 2).data.length + 1
        = (fuel + ts.length + 8) + 1 := by
      refine ⟨2 * (stringify (tasksToJson (t :: ts)) 2).data.length - ts.length - 8, ?_⟩
      rw [hdata]
      simp only [List.length_cons, List.length_append, List.length_nil] at hlen ⊢
      omega
    unfold parse
    rw [hfuel, hdata, parseValue]
    have hskip : ∀ x, skipWhiteSpace ('[' :: x) = '[' :: x := fun _ => rfl
    rw [hskip]
    simp only [Char.reduceToNat, Nat.reduceEqDiff, if_false, if_true]
    obtain ⟨x, hx, hel⟩ : ∃ x, skipWhiteSpace ('\n' :: ' ' :: ' '
          :: (joinWith [',', '\n', ' ', ' '] ((t :: ts).map taskText) ++ ['\n', ']']))
          = '{' :: x ∧
        parseElements (fuel + ts.length + 8) ('{' :: x)
          = .ok ((t :: ts).map Task.toJson, []) := by
      have h := parseElements_tasks fuel t ts [] [] (fun _ => rfl)
      rw [List.nil_append] at h
      cases ts with
      | nil =>
        simp only [List.map_cons, List.map_nil, joinWith] at h ⊢
        rw [taskText_eq] at h ⊢
        exact ⟨_, rfl, h⟩
      | cons u us =>
        simp only [List.map_cons, joinWith] at h ⊢
        rw [taskText_eq t] at h ⊢
        exact ⟨_, rfl, h⟩
    rw [hx]
    simp only [Char.reduceToNat, Nat.reduceEqDiff, if_false, hel]
    rfl

end JSON

/-! ## The store as a text file: round trip, initialization, loading -/

/-- C16 (as the code behaves): for every sequence of task records `tasks`, loading the
text that `save` wrote for `tasks` returns `tasks` and leaves the file as it is, and saving
what was loaded writes the same text again; the text that `initialize` writes into a missing
file is the text `save` writes for the empty sequence. -/
theorem save_load_stable (tasks : List Task) (file : Option String) :
    Raw.readTasks (Raw.writeTasks (tasksToJson tasks) file)
      = (.ok (tasksToJson tasks), some (JSON.stringify (tasksToJson tasks) 2)) ∧
    JSON.parse (JSON.stringify (tasksToJson tasks) 2) = .ok (tasksToJson tasks) ∧
    Raw.writeTasks (tasksToJson tasks) (some (JSON.stringify (tasksToJson tasks) 2))
      = some (JSON.stringify (tasksToJson tasks) 2) ∧
    Raw.initializeFile none = some (JSON.stringify (tasksToJson []) 2) := by
  refine ⟨?_, JSON.parse_stringify_tasks tasks, rfl, rfl⟩
  show (JSON.parse (JSON.stringify (tasksToJson tasks) 2),
    some (JSON.stringify (tasksToJson tasks) 2)) = _
  rw [JSON.parse_stringify_tasks]

set_option maxRecDepth 100000 in
/-- C16 fails as stated: the one-line text `compactText` is a valid serialized sequence of
one task record, `load` returns that sequence, and `save` of what was loaded writes a
different text (the same record laid out over several lines); likewise the text `[ ]` is a
valid serialized empty sequence and is rewritten as `[]`. -/
theorem save_load_rewrites_one_line_text :
    (Raw.readTasks (some compactText)).1 = .ok (tasksToJson [sampleTask 1 "a"]) ∧
    Raw.writeTasks (tasksToJson [sampleTask 1 "a"]) (some compactText) ≠ some compactText ∧
    (Raw.readTasks (some "[ ]")).1 = .ok (tasksToJson []) ∧
    Raw.writeTasks (tasksToJson []) (some "[ ]") ≠ some "[ ]" := by
  refine ⟨by rfl, by decide, by rfl, by decide⟩

/-- C17: `initialize` leaves the text of an existing file unchanged, whatever it is; it
creates a missing file with the text `[]`, which reads back as the empty sequence; and
running it twice is the same as running it once.  The same holds for `initializeFile` on a
world whose file holds a sequence of tasks. -/
theorem initializeFile_idempotent (file : Option String) (data : String) (w : World) :
    Raw.initializeFile (some data) = some data ∧
    Raw.initializeFile none = some "[]" ∧
    JSON.parse "[]" = .ok (tasksToJson []) ∧
    Raw.initializeFile (Raw.initializeFile file) = Raw.initializeFile file ∧
    initializeFile (initializeFile w) = initializeFile w ∧
    (initializeFile w).file = some (tasksOf w) ∧
    (initializeFile w).writes = (if w.file.isSome then w.writes else w.writes ++ [[]]) := by
  refine ⟨rfl, by decide, by rfl, ?_, ?_, initializeFile_file w, ?_⟩
  · cases file <;> rfl
  · unfold initializeFile
    cases h : w.file <;> simp [writeFile, h]
  · unfold initializeFile
    cases h : w.file <;> simp [writeFile]

/-- C18: when the file is missing, `load` returns the empty sequence and leaves the file
present with the text `[]`; a second `load` returns the empty sequence again and leaves that
text in place.  The same holds for `readTasks` on a world without file. -/
theorem readTasks_missing_file (w : World) :
    Raw.readTasks none = (.ok (tasksToJson []), some "[]") ∧
    Raw.readTasks (Raw.readTasks none).2 = (.ok (tasksToJson []), some "[]") ∧
    (readTasks { w with file := none }).1 = [] ∧
    (readTasks { w with file := none }).2.file = some [] ∧
    (readTasks (readTasks { w with file := none }).2).1 = [] ∧
    (readTasks (readTasks { w with file := none }).2).2 = (readTasks { w with file := none }).2 := by
  refine ⟨by rfl, by rfl, rfl, rfl, rfl, rfl⟩

/-- C19 fails as stated: for the texts `{}` and `42`, valid JSON that is not an array, and
`[1, "x"]`, an array whose elements are not task records, `load` signals no error and
returns the parsed value. -/
theorem readTasks_accepts_any_json_value :
    Raw.readTasks (some "\x7b\x7d") = (.ok (.obj []), some "\x7b\x7d") ∧
    Raw.readTasks (some "42") = (.ok (.num 42), some "42") ∧
    Raw.readTasks (some "[1, \"x\"]") = (.ok (.arr [.num 1, .str "x"]), some "[1, \"x\"]") := by
  refine ⟨by rfl, by rfl, by rfl⟩

/-! ## The recursion bound of `JSON.parse` is never reached -/

namespace JSON

theorem progress_mono {α : Type} {cs cs' : List Char} {r : Except Fault (α × List Char)}
    (h : Progress cs r) (hle : cs.length ≤ cs'.length) : Progress cs' r := by
  cases r with
  | error e => exact h
  | ok p =>
    obtain ⟨a, rest⟩ := p
    exact Nat.lt_of_lt_of_le h hle

theorem progress_consChar (cs : List Char) (c : Char)
    (r : Except Fault (List Char × List Char)) (h : Progress cs r) :
    Progress cs (consChar c r) := by
  cases r with
  | error e => exact h
  | ok p =>
    obtain ⟨a, rest⟩ := p
    exact h

theorem skipWhiteSpace_length_le (cs : List Char) :
    (skipWhiteSpace cs).length ≤ cs.length := by
  induction cs with
  | nil => simp [skipWhiteSpace]
  | cons c cs ih =>
    rw [skipWhiteSpace]
    split
    · simp only [List.length_cons]; omega
    · exact le_refl _

theorem spanDigits_length (cs : List Char) :
    (spanDigits cs).1.length + (spanDigits cs).2.length = cs.length := by
  induction cs with
  | nil => rfl
  | cons c cs ih =>
    rw [spanDigits]
    split
    · simp only [List.length_cons]; omega
    · simp

theorem lowSurrogate_ne_bound (n : Nat) (cs : List Char) :
    lowSurrogate n cs ≠ .error .bound := by
  unfold lowSurrogate
  split
  · split
    · split
      · simp
      · split <;> simp
    · simp
  · simp

theorem unicodeEscape_ne_bound (cs : List Char) : unicodeEscape cs ≠ .error .bound := by
  unfold unicodeEscape
  split
  · split
    · simp
    · split
      · simp
      · split
        · simp
        · exact lowSurrogate_ne_bound _ _
  · simp

theorem parseEscape_ne_bound (cs : List Char) : parseEscape cs ≠ .error .bound := by
  unfold parseEscape
  split
  · simp
  · split
    · simp
    · split
      · exact unicodeEscape_ne_bound _
      · simp

theorem progress_parseStringLoop (skip : Nat) (cs : List Char) :
    Progress cs (parseStringLoop skip cs) := by
  induction cs generalizing skip with
  | nil =>
    cases skip <;> simp [parseStringLoop, Progress]
  | cons c cs ih =>
    have hle : cs.length ≤ (c :: cs).length := by simp
    cases skip with
    | succ k =>
      rw [parseStringLoop]
      exact progress_mono (ih k) hle
    | zero =>
      rw [parseStringLoop]
      split_ifs
      · simp [Progress]
      · cases hesc : parseEscape cs with
        | error e =>
          simp only [Progress]
          intro he
          exact parseEscape_ne_bound cs (he ▸ hesc)
        | ok p =>
          obtain ⟨ch, n⟩ := p
          exact progress_consChar _ _ _ (progress_mono (ih n) hle)
      · simp [Progress]
      · exact progress_consChar _ _ _ (progress_mono (ih 0) hle)

theorem progress_parseStringChars (cs : List Char) : Progress cs (parseStringChars cs) :=
  progress_parseStringLoop 0 cs

theorem progress_parseIntegerPart (cs : List Char) : Progress cs (parseIntegerPart cs) := by
  cases cs with
  | nil => simp [parseIntegerPart, Progress]
  | cons c cs =>
    rw [parseIntegerPart]
    have := spanDigits_length cs
    split_ifs
    · simp [Progress]
    · simp only [Progress, List.length_cons]; omega
    · simp [Progress]

theorem parseFractionPart_rest (cs : List Char) :
    (∀ e, parseFractionPart cs = .error e → e ≠ .bound) ∧
    (∀ fp rest, parseFractionPart cs = .ok (fp, rest) → rest.length ≤ cs.length) := by
  cases cs with
  | nil => simp [parseFractionPart]
  | cons c cs =>
    rw [parseFractionPart]
    have := spanDigits_length cs
    split_ifs
    · simp
    · refine ⟨by simp, ?_⟩
      intro fp rest h
      injection h with h
      rw [h] at this
      simp only [List.length_cons] at this ⊢; omega
    · simp

theorem parseExponentDigits_rest (negative : Bool) (cs : List Char) :
    (∀ e, parseExponentDigits negative cs = .error e → e ≠ .bound) ∧
    (∀ ex rest, parseExponentDigits negative cs = .ok (ex, rest) → rest.length ≤ cs.length) := by
  unfold parseExponentDigits
  have := spanDigits_length cs
  split
  · simp
  · refine ⟨by simp, ?_⟩
    intro ex rest h
    injection h with h
    injection h with _ h
    rw [← h]
    omega

theorem parseExponentPart_rest (cs : List Char) :
    (∀ e, parseExponentPart cs = .error e → e ≠ .bound) ∧
    (∀ ex rest, parseExponentPart cs = .ok (ex, rest) → rest.length ≤ cs.length) := by
  unfold parseExponentPart
  split
  · simp
  · split
    · split
      · simp
      · rename_i s cs1
        have h1 := parseExponentDigits_rest true cs1
        have h2 := parseExponentDigits_rest false cs1
        have h3 := parseExponentDigits_rest false (s :: cs1)
        simp only [List.length_cons] at h3 ⊢
        split
        · exact ⟨h1.1, fun ex rest h => by have := h1.2 ex rest h; omega⟩
        · split
          · exact ⟨h2.1, fun ex rest h => by have := h2.2 ex rest h; omega⟩
          · exact ⟨h3.1, fun ex rest h => by have := h3.2 ex rest h; omega⟩
    · simp

theorem scaled_ne_bound (m : Nat) (e : Int) : scaled m e ≠ .error .bound := by
  unfold scaled
  split
  · simp
  · split <;> simp

theorem progress_parseNumber (cs : List Char) : Progress cs (parseNumber cs) := by
  unfold parseNumber
  simp only
  have htail : (if (cs.head?.map Char.toNat) = some 45 then cs.tail else cs).length
      ≤ cs.length := by
    split
    · simp
    · exact le_refl _
  have hint := progress_parseIntegerPart (if (cs.head?.map Char.toNat) = some 45 then cs.tail else cs)
  cases h1 : parseIntegerPart (if (cs.head?.map Char.toNat) = some 45 then cs.tail else cs) with
  | error e => rw [h1] at hint; exact hint
  | ok p1 =>
    obtain ⟨ip, cs1⟩ := p1
    rw [h1] at hint
    have hcs1 : cs1.length < cs.length := Nat.lt_of_lt_of_le hint htail
    simp only
    cases h2 : parseFractionPart cs1 with
    | error e => exact (parseFractionPart_rest cs1).1 e h2
    | ok p2 =>
      obtain ⟨fp, cs2⟩ := p2
      have hcs2 := (parseFractionPart_rest cs1).2 fp cs2 h2
      simp only
      cases h3 : parseExponentPart cs2 with
      | error e => exact (parseExponentPart_rest cs2).1 e h3
      | ok p3 =>
        obtain ⟨ex, cs3⟩ := p3
        have hcs3 := (parseExponentPart_rest cs2).2 ex cs3 h3
        simp only
        cases h4 : scaled (digitsValue (ip ++ fp)) (ex - ↑fp.length) with
        | error e =>
          simp only [Progress]
          intro he
          exact scaled_ne_bound _ _ (he ▸ h4)
        | ok v =>
          simp only [Progress]
          omega

theorem progress_error {α : Type} (cs : List Char) :
    Progress cs (Except.error Fault.invalidJson : Except Fault (α × List Char)) := by
  simp [Progress]

theorem progress_parse (fuel : Nat) :
    (∀ cs, 2 * cs.length + 1 ≤ fuel → Progress cs (parseValue fuel cs)) ∧
    (∀ cs, 2 * cs.length + 2 ≤ fuel → Progress cs (parseElements fuel cs)) ∧
    (∀ ms cs, 2 * cs.length + 2 ≤ fuel → Progress cs (parseMembers fuel ms cs)) := by
  induction fuel with
  | zero =>
    refine ⟨fun cs h => ?_, fun cs h => ?_, fun ms cs h => ?_⟩ <;> omega
  | succ fuel ih =>
    obtain ⟨ihV, ihE, ihM⟩ := ih
    refine ⟨?_, ?_, ?_⟩
    · intro cs h
      rw [parseValue]
      have hsk := skipWhiteSpace_length_le cs
      cases hs : skipWhiteSpace cs with
      | nil => exact progress_error cs
      | cons c rest =>
        rw [hs] at hsk
        simp only [List.length_cons] at hsk
        simp only
        by_cases h123 : c.toNat = 123
        · rw [if_pos h123]
          have hsk2 := skipWhiteSpace_length_le rest
          cases hs2 : skipWhiteSpace rest with
          | nil => exact progress_error cs
          | cons d rest1 =>
            rw [hs2] at hsk2
            simp only [List.length_cons] at hsk2
            simp only
            by_cases h125 : d.toNat = 125
            · rw [if_pos h125]
              simp only [Progress]; omega
            · rw [if_neg h125]
              have hm := ihM [] (d :: rest1) (by simp only [List.length_cons]; omega)
              cases hpm : parseMembers fuel [] (d :: rest1) with
              | error e => rw [hpm] at hm; exact hm
              | ok p =>
                obtain ⟨ms, rest2⟩ := p
                rw [hpm] at hm
                simp only [Progress, List.length_cons] at hm ⊢
                omega
        · rw [if_neg h123]
          by_cases h91 : c.toNat = 91
          · rw [if_pos h91]
            have hsk2 := skipWhiteSpace_length_le rest
            cases hs2 : skipWhiteSpace rest with
            | nil => exact progress_error cs
            | cons d rest1 =>
              rw [hs2] at hsk2
              simp only [List.length_cons] at hsk2
              simp only
              by_cases h93 : d.toNat = 93
              · rw [if_pos h93]
                simp only [Progress]; omega
              · rw [if_neg h93]
                have he := ihE (d :: rest1) (by simp only [List.length_cons]; omega)
                cases hpe : parseElements fuel (d :: rest1) with
                | error e => rw [hpe] at he; exact he
                | ok p =>
                  obtain ⟨items, rest2⟩ := p
                  rw [hpe] at he
                  simp only [Progress, List.length_cons] at he ⊢
                  omega
          · rw [if_neg h91]
            by_cases h34 : c.toNat = 34
            · rw [if_pos h34]
              have hp := progress_parseStringChars rest
              cases hps : parseStringChars rest with
              | error e => rw [hps] at hp; exact hp
              | ok p =>
                obtain ⟨s, rest1⟩ := p
                rw [hps] at hp
                simp only [Progress] at hp ⊢
                omega
            · rw [if_neg h34]
              by_cases hnum : c.toNat = 45 ∨ isDigit c = true
              · rw [if_pos hnum]
                have hp := progress_parseNumber (c :: rest)
                cases hpn : parseNumber (c :: rest) with
                | error e => rw [hpn] at hp; exact hp
                | ok p =>
                  obtain ⟨n, rest1⟩ := p
                  rw [hpn] at hp
                  simp only [Progress, List.length_cons] at hp ⊢
                  omega
              · rw [if_neg hnum]
                split
                · rename_i heq
                  injection heq with _ heq
                  rw [heq] at hsk
                  simp only [Progress, List.length_cons] at hsk ⊢
                  omega
                · rename_i heq
                  injection heq with _ heq
                  rw [heq] at hsk
                  simp only [Progress, List.length_cons] at hsk ⊢
                  omega
                · rename_i heq
                  injection heq with _ heq
                  rw [heq] at hsk
                  simp only [Progress, List.length_cons] at hsk ⊢
                  omega
                · exact progress_error cs
    · intro cs h
      rw [parseElements]
      have hv := ihV cs (by omega)
      cases hpv : parseValue fuel cs with
      | error e => rw [hpv] at hv; exact hv
      | ok p =>
        obtain ⟨v, rest⟩ := p
        rw [hpv] at hv
        simp only [Progress] at hv
        simp only
        have hsk := skipWhiteSpace_length_le rest
        cases hs : skipWhiteSpace rest with
        | nil => exact progress_error cs
        | cons c rest1 =>
          rw [hs] at hsk
          simp only [List.length_cons] at hsk
          simp only
          by_cases h93 : c.toNat = 93
          · rw [if_pos h93]
            simp only [Progress]; omega
          · rw [if_neg h93]
            by_cases h44 : c.toNat = 44
            · rw [if_pos h44]
              have he := ihE rest1 (by omega)
              cases hpe : parseElements fuel rest1 with
              | error e => rw [hpe] at he; exact he
              | ok p =>
                obtain ⟨vs, rest2⟩ := p
                rw [hpe] at he
                simp only [Progress] at he ⊢
                omega
            · rw [if_neg h44]
              exact progress_error cs
    · intro ms cs h
      rw [parseMembers]
      have hsk := skipWhiteSpace_length_le cs
      cases hs : skipWhiteSpace cs with
      | nil => exact progress_error cs
      | cons q rest =>
        rw [hs] at hsk
        simp only [List.length_cons] at hsk
        simp only
        by_cases h34 : q.toNat = 34
        · rw [if_pos h34]
          have hp := progress_parseStringChars rest
          cases hps : parseStringChars rest with
          | error e => rw [hps] at hp; exact hp
          | ok p =>
            obtain ⟨key, rest1⟩ := p
            rw [hps] at hp
            simp only [Progress] at hp
            simp only
            have hsk1 := skipWhiteSpace_length_le rest1
            cases hs1 : skipWhiteSpace rest1 with
            | nil => exact progress_error cs
            | cons colon rest2 =>
              rw [hs1] at hsk1
              simp only [List.length_cons] at hsk1
              simp only
              by_cases h58 : colon.toNat = 58
              · rw [if_pos h58]
                have hv := ihV rest2 (by omega)
                cases hpv : parseValue fuel rest2 with
                | error e => rw [hpv] at hv; exact hv
                | ok p =>
                  obtain ⟨v, rest3⟩ := p
                  rw [hpv] at hv
                  simp only [Progress] at hv
                  simp only
                  have hsk3 := skipWhiteSpace_length_le rest3
                  cases hs3 : skipWhiteSpace rest3 with
                  | nil => exact progress_error cs
                  | cons c rest4 =>
                    rw [hs3] at hsk3
                    simp only [List.length_cons] at hsk3
                    simp only
                    by_cases h125 : c.toNat = 125
                    · rw [if_pos h125]
                      simp only [Progress]; omega
                    · rw [if_neg h125]
                      by_cases h44 : c.toNat = 44
                      · rw [if_pos h44]
                        have hm := ihM (defineProperty ms ⟨key⟩ v) rest4 (by omega)
                        cases hpm : parseMembers fuel (defineProperty ms ⟨key⟩ v) rest4 with
                        | error e => rw [hpm] at hm; exact hm
                        | ok p =>
                          obtain ⟨ms', rest5⟩ := p
                          rw [hpm] at hm
                          simp only [Progress] at hm ⊢
                          omega
                      · rw [if_neg h44]
                        exact progress_error cs
              · rw [if_neg h58]
                exact progress_error cs
        · rw [if_neg h34]
          exact progress_error cs

/-- The recursion bound of `JSON.parse` is never reached: no text makes it report
`Fault.bound`. -/
theorem parse_within_bound (text : String) : parse text ≠ .error .bound := by
  unfold parse
  have h := (progress_parse (2 * text.data.length + 1)).1 text.data (le_refl _)
  cases hp : parseValue (2 * text.data.length + 1) text.data with
  | error e =>
    rw [hp] at h
    simp only [Progress] at h
    simpa using h
  | ok p =>
    obtain ⟨v, rest⟩ := p
    simp only
    split <;> simp

end JSON

/-! ## Loading a file whose text is not a store -/

/-- C19 (as the code behaves): `load` of an existing file never rewrites it; it signals a
syntax error to its caller exactly when `JSON.parse` rejects the text, and it returns every
value that `JSON.parse` accepts as it is; the text `save` wrote for a sequence of task
records is accepted and gives that sequence.  Texts that are not valid JSON, such as
`tasks`, `[1,]` or an empty file, are rejected. -/
theorem readTasks_fails_on_invalid_json_only (data : String) (tasks : List Task) :
    (Raw.readTasks (some data)).2 = some data ∧
    ((Raw.readTasks (some data)).1 = .error .invalidJson
      ↔ JSON.parse data = .error .invalidJson) ∧
    (∀ v, JSON.parse data = .ok v ↔ (Raw.readTasks (some data)).1 = .ok v) ∧
    (Raw.readTasks (some data)).1 ≠ .error .bound ∧
    (Raw.readTasks (some (JSON.stringify (tasksToJson tasks) 2))).1 = .ok (tasksToJson tasks) ∧
    Raw.readTasks (some "tasks") = (.error .invalidJson, some "tasks") ∧
    Raw.readTasks (some "[1,]") = (.error .invalidJson, some "[1,]") ∧
    Raw.readTasks (some "") = (.error .invalidJson, some "") :=
  ⟨rfl, Iff.rfl, fun _ => Iff.rfl, JSON.parse_within_bound data,
    JSON.parse_stringify_tasks tasks, by rfl, by rfl, by rfl⟩

end TaskCli
